import Mathlib

/-!
Verification of the mssim engine core (crates/engine/src/math.rs and
crates/engine/src/engine.rs) against its specification.

Modelling conventions.

The Rust code computes with IEEE-754 `f64`/`f32`; this development uses exact
rational arithmetic (`ℚ`) as the idealised semantics of those computations.
Floating literals of the source (`1e-10`, `0.5`, `0.85`, ...) are embedded as
the exact rationals they denote in the source text.  Norm comparisons
`norm < c` of the source are embedded as `normSquared < c^2`, which is
equivalent for nonnegative norms and keeps everything inside `ℚ`.

Two operations of the source are calls into the external `nalgebra` library
and are not code of this repository:

* the symmetric eigensolver used inside `nearest_pd` (`symmetric_eigen`,
  followed by clamping every eigenvalue below `eps` up to `eps` and
  reconstructing `V · diag(vals) · Vᵀ`, lines 46-55 of math.rs).  The whole
  eigendecompose/clamp/reconstruct block is modelled as an injected function
  `P : Mat n → Mat n`, as the spec itself directs ("treat it as an injected
  capability/interface").  Where a claim depends on what that block computes,
  the theorem carries the hypothesis `IsEigClamp r (P r)` for the matrices `r`
  the run actually feeds to it.  `IsEigClamp A S` is a purely algebraic
  characterisation of "S is A with every eigenvalue below eps lifted to eps":
  over ℝ, a symmetric S that commutes with A, satisfies
  (S - A)(S - eps·I) = 0 and is ⪰ A and ⪰ eps·I in the positive-semidefinite
  order agrees with A on every eigenspace whose eigenvalue is ≥ eps and equals
  eps·I on the rest, i.e. it is exactly the clamped reconstruction; conversely
  the clamped reconstruction satisfies all five conditions.

* the Cholesky factorisation used by `cholesky_decompose`
  (`nalgebra::linalg::Cholesky::new`).  Its column algorithm is embedded
  directly (`cholAux`), in the mathematically identical Schur-complement
  recursion, with the square root injected as a function `s : ℚ → ℚ`; the
  exactness of `s` on the pivots actually encountered is a hypothesis where a
  claim needs it.  A non-positive pivot makes the factorisation fail, which is
  how the spec describes the failure condition.

`compute_shock` converts `f32` buffers to `f64` and back; in the exact model
both conversions are the identity and are therefore not represented.  The
three jump-diffusion scalars are never inspected by the code, only moved into
the result; they are modelled by the type `F32V`, which also has the
non-finite IEEE values, so that claims about non-finite scalars are statable.
-/

namespace Mssim

open Matrix

/-- Square rational matrices, the idealisation of nalgebra `DMatrix<f64>`. -/
abbrev Mat (n : ℕ) : Type := Matrix (Fin n) (Fin n) ℚ

/-- Rational vectors, the idealisation of nalgebra `DVector<f64>`. -/
abbrev Vec (n : ℕ) : Type := Fin n → ℚ

/-- The eigenvalue floor `eps = 1e-10` of `nearest_pd` (math.rs line 36). -/
def eps : ℚ := 1 / 10 ^ 10

/-- math.rs `adjust_drift`: elementwise sum `base + delta`. -/
def adjust_drift {n : ℕ} (base delta : Vec n) : Vec n :=
  base + delta

/-- math.rs `adjust_vol`: elementwise product `base.component_mul(multiplier)`. -/
def adjust_vol {n : ℕ} (base multiplier : Vec n) : Vec n :=
  fun i => base i * multiplier i

/-- The all-ones matrix `DMatrix::from_element(n, n, 1.0)`. -/
def onesMat (n : ℕ) : Mat n :=
  Matrix.of fun _ _ => (1 : ℚ)

/-- math.rs `blend_correlation`: `r_base * (1 - skew) + ones * skew`. -/
def blend_correlation {n : ℕ} (r_base : Mat n) (skew : ℚ) : Mat n :=
  (1 - skew) • r_base + skew • onesMat n

/-- Overwrite the diagonal with ones: the `y[(i, i)] = 1.0` loops of
`nearest_pd` (math.rs lines 61-63 and 75-77). -/
def setDiag1 {n : ℕ} (M : Mat n) : Mat n :=
  Matrix.of fun i j => if i = j then 1 else M i j

/-- The symmetrisation `(M + Mᵀ) * 0.5` (math.rs lines 39 and 73). -/
def symmetrize {n : ℕ} (M : Mat n) : Mat n :=
  ((1 : ℚ) / 2) • (M + M.transpose)

/-- Squared Frobenius norm; the source compares `norm() < eps * 10.0`, which
for the nonnegative norm is equivalent to `frobSq < (eps * 10)^2`. -/
def frobSq {n : ℕ} (M : Mat n) : ℚ :=
  ∑ i, ∑ j, (M i j) ^ 2

/-- The squared convergence threshold `(eps * 10.0)^2` of math.rs line 67. -/
def tolSq : ℚ := (eps * 10) ^ 2

/-- The iteration of `nearest_pd` (math.rs lines 42-70), fuelled by the
remaining iteration budget.  `P` is the injected
eigendecompose/clamp/reconstruct block (lines 46-55), `y` and `ds` the loop
state, `k` the number of iterations executed so far.  Returns the final `y`
together with the number of iterations that actually ran. -/
def nearestPDGo {n : ℕ} (P : Mat n → Mat n) :
    ℕ → Mat n → Mat n → ℕ → Mat n × ℕ
  | 0, y, _, k => (y, k)
  | fuel + 1, y, ds, k =>
    let r := y - ds
    let x := P r
    let ds2 := x - r
    let y2 := setDiag1 x
    if frobSq (y2 - x) < tolSq then (y2, k + 1)
    else nearestPDGo P fuel y2 ds2 (k + 1)

/-- math.rs `nearest_pd`: symmetrise, run up to 100 alternating-projection
iterations, then final symmetrisation and unit-diagonal enforcement
(lines 33-79). -/
def nearestPD {n : ℕ} (P : Mat n → Mat n) (mat : Mat n) : Mat n :=
  setDiag1 (symmetrize (nearestPDGo P 100 (symmetrize mat) 0 0).1)

/-- Abort-aware variant of the `nearest_pd` loop.  The injected eigen-clamp
block is total on every nonempty matrix, but nalgebra's `symmetric_eigen`
panics on a 0×0 input (`SymmetricTridiagonal::new` asserts "Unable to compute
the symmetric tridiagonal decomposition of an empty matrix."), so here the
block returns an `Option` and an abort (`none`) propagates out of the loop,
modelling the panic.  `nearestPDGoOpt_agrees` shows this refines
`nearestPDGo`: the two agree whenever the block returns. -/
def nearestPDGoOpt {n : ℕ} (P : Mat n → Option (Mat n)) :
    ℕ → Mat n → Mat n → ℕ → Option (Mat n × ℕ)
  | 0, y, _, k => some (y, k)
  | fuel + 1, y, ds, k =>
    match P (y - ds) with
    | none => none
    | some x =>
      if frobSq (setDiag1 x - x) < tolSq then some (setDiag1 x, k + 1)
      else nearestPDGoOpt P fuel (setDiag1 x) (x - (y - ds)) (k + 1)

/-- Abort-aware `nearest_pd`: as `nearestPD`, but an abort of the injected
eigen-clamp block propagates. -/
def nearestPDOpt {n : ℕ} (P : Mat n → Option (Mat n)) (mat : Mat n) :
    Option (Mat n) :=
  Option.map (fun p => setDiag1 (symmetrize p.1))
    (nearestPDGoOpt P 100 (symmetrize mat) 0 0)

/-- math.rs `rebuild_covariance`: `D · R · D` with `D = diag(sigma)`. -/
def rebuild_covariance {n : ℕ} (sigma : Vec n) (r : Mat n) : Mat n :=
  Matrix.diagonal sigma * r * Matrix.diagonal sigma

/-- The trailing principal submatrix minus the rank-one Schur update
`A[1.., 1..] - b bᵀ / a`, where `a = A 0 0` and `b = A[1.., 0]`.  This is the
state on which the Cholesky column algorithm recurses. -/
def schurC {n : ℕ} (A : Mat (n + 1)) : Mat n :=
  Matrix.of fun i j => A i.succ j.succ - A i.succ 0 * A j.succ 0 / A 0 0

/-- Tail of a vector over `Fin (n+1)`. -/
def vtail {n : ℕ} (x : Vec (n + 1)) : Vec n := fun i => x i.succ

/-- Trailing principal submatrix. -/
def mtail {n : ℕ} (A : Mat (n + 1)) : Mat n :=
  Matrix.of fun i j => A i.succ j.succ

/-- First column of a matrix over `Fin (n+1)`, below the corner. -/
def bvec {n : ℕ} (A : Mat (n + 1)) : Vec n := fun i => A i.succ 0

/-- The Cholesky factorisation of `nalgebra::linalg::Cholesky::new` in exact
arithmetic, with the square root injected as `s`.  Fails (returns `none`) as
soon as a non-positive pivot is encountered; otherwise builds the
lower-triangular factor column by column. -/
def cholAux (s : ℚ → ℚ) : (n : ℕ) → Mat n → Option (Mat n)
  | 0, _ => some 0
  | n + 1, A =>
    if 0 < A 0 0 then
      match cholAux s n (schurC A) with
      | none => none
      | some M =>
        some (Matrix.of (Fin.cons (Fin.cons (s (A 0 0)) 0)
          fun i => Fin.cons (A i.succ 0 / s (A 0 0)) (M i)))
    else none

/-- The list of pivots the Cholesky recursion encounters (the factorisation
succeeds exactly when all of them are positive; note the pivots do not depend
on the injected square root). -/
def cholPivots : (n : ℕ) → Mat n → List ℚ
  | 0, _ => []
  | n + 1, A =>
    A 0 0 :: (if 0 < A 0 0 then cholPivots n (schurC A) else [])

/-- The injected square root returns exact positive square roots on every
positive pivot the factorisation of `A` encounters.  This is the idealisation
of `f64::sqrt` on those calls. -/
def SqrtExactOn (s : ℚ → ℚ) {n : ℕ} (A : Mat n) : Prop :=
  ∀ p ∈ cholPivots n A, 0 < p → s p * s p = p ∧ 0 < s p

/-- The error message of math.rs line 97. -/
def cholErrMsg : String :=
  "Cholesky decomposition failed: matrix is not positive-definite"

/-- math.rs `cholesky_decompose`: the nalgebra Cholesky, with `None` mapped to
the not-positive-definite error string (lines 94-98). -/
def cholesky_decompose (s : ℚ → ℚ) {n : ℕ} (sigma : Mat n) :
    Except String (Mat n) :=
  match cholAux s n sigma with
  | some l => Except.ok l
  | none => Except.error cholErrMsg

/-- Positive semidefiniteness of the quadratic form, over ℚ. -/
def PSDQ {n : ℕ} (A : Mat n) : Prop :=
  ∀ x : Vec n, 0 ≤ x ⬝ᵥ A.mulVec x

/-- Positive definiteness over ℚ: symmetric with positive quadratic form on
nonzero vectors.  For a symmetric real matrix this is exactly "all eigenvalues
strictly positive", the phrasing the spec uses. -/
def PosDefQ {n : ℕ} (A : Mat n) : Prop :=
  A.IsSymm ∧ ∀ x : Vec n, x ≠ 0 → 0 < x ⬝ᵥ A.mulVec x

/-- Algebraic characterisation of the eigendecompose/clamp/reconstruct block
of `nearest_pd` (math.rs lines 46-55): `S` is what that block returns on the
symmetric input `A` iff `S` is symmetric, commutes with `A`,
`(S - A)(S - eps·I) = 0`, and `S ⪰ A` and `S ⪰ eps·I` in the semidefinite
order.  (Over ℝ these five conditions are satisfied by, and pin down uniquely,
the matrix `V · diag(max(eigenvalue, eps)) · Vᵀ`.) -/
def IsEigClamp {n : ℕ} (A S : Mat n) : Prop :=
  S.IsSymm ∧ S * A = A * S ∧ (S - A) * (S - eps • (1 : Mat n)) = 0 ∧
    PSDQ (S - A) ∧ PSDQ (S - eps • (1 : Mat n))

/-- Idealised IEEE-754 `f32` values for the jump-diffusion pass-through
scalars: a finite value, or one of the non-finite values. -/
inductive F32V where
  | val (q : ℚ)
  | nan
  | inf
  | negInf
deriving DecidableEq, Repr

/-- engine.rs `EngineResult` (the zero-copy `Float32Array` getters return the
stored buffers unchanged and are not modelled separately). -/
structure EngineResult where
  adjusted_drift : List ℚ
  adjusted_vol : List ℚ
  cholesky_l : List ℚ
  num_assets : ℕ
  jump_lambda : F32V
  jump_mean : F32V
  jump_vol : F32V
deriving DecidableEq, Repr

/-- The dimension-mismatch message of engine.rs lines 84-92: it reports the
expected `N` and the actual length of every one of the five buffers. -/
def dimMismatchMsg (n dlen vlen clen ddlen vmlen : ℕ) : String :=
  "Input length mismatch: expected N=" ++ toString n ++
    ", got drift=" ++ toString dlen ++ ", vol=" ++ toString vlen ++
    ", corr=" ++ toString clen ++ ", dd=" ++ toString ddlen ++
    ", vm=" ++ toString vmlen

/-- `DVector::from_vec` on a flat buffer of (checked) length `n`. -/
def vecOfList (n : ℕ) (l : List ℚ) : Vec n :=
  fun i => l.getD i 0

/-- `DMatrix::from_row_slice(n, n, ..)`: row-major buffer to matrix. -/
def matOfRowList (n : ℕ) (l : List ℚ) : Mat n :=
  Matrix.of fun i j => l.getD (i * n + j) 0

/-- Vector packed back into a flat list. -/
def listOfVec {n : ℕ} (v : Vec n) : List ℚ :=
  (List.finRange n).map v

/-- The row-major flattening of engine.rs lines 133-138. -/
def flattenRowMajor {n : ℕ} (L : Mat n) : List ℚ :=
  (List.finRange n).flatMap fun i => (List.finRange n).map fun j => L i j

/-- engine.rs `compute_shock` (lines 63-149): validate the five buffer
lengths against `num_assets`, then run the six-stage pipeline and pack the
result.  `P` is the injected eigen-clamp block used by `nearest_pd` and `s`
the injected square root used by the Cholesky factorisation; the `f32 ↔ f64`
conversions are identities in the exact model. -/
def compute_shock (num_assets : ℕ)
    (P : Mat num_assets → Mat num_assets) (s : ℚ → ℚ)
    (base_drift base_vol base_correlation delta_drift vol_multiplier : List ℚ)
    (correlation_skew : ℚ) (jump_lambda jump_mean jump_vol : F32V) :
    Except String EngineResult :=
  let n := num_assets
  if base_drift.length ≠ n ∨ base_vol.length ≠ n ∨
      base_correlation.length ≠ n * n ∨ delta_drift.length ≠ n ∨
      vol_multiplier.length ≠ n then
    Except.error (dimMismatchMsg n base_drift.length base_vol.length
      base_correlation.length delta_drift.length vol_multiplier.length)
  else
    let base_drift_v := vecOfList n base_drift
    let base_vol_v := vecOfList n base_vol
    let base_corr_m := matOfRowList n base_correlation
    let delta_drift_v := vecOfList n delta_drift
    let vol_mult_v := vecOfList n vol_multiplier
    let adj_drift := adjust_drift base_drift_v delta_drift_v
    let adj_vol := adjust_vol base_vol_v vol_mult_v
    let blended := blend_correlation base_corr_m correlation_skew
    let pd := nearestPD P blended
    let cov := rebuild_covariance adj_vol pd
    match cholesky_decompose s cov with
    | Except.error e => Except.error e
    | Except.ok l =>
      Except.ok
        { adjusted_drift := listOfVec adj_drift
          adjusted_vol := listOfVec adj_vol
          cholesky_l := flattenRowMajor l
          num_assets := n
          jump_lambda := jump_lambda
          jump_mean := jump_mean
          jump_vol := jump_vol }

/-- Abort-aware `compute_shock`: identical to `compute_shock` except that the
injected eigen-clamp block may abort (nalgebra panics on an empty matrix) and
the abort propagates as `none` — the call then terminates abnormally instead
of returning either an error or a result.  `compute_shockOpt_agrees` shows
this refines `compute_shock` whenever the block returns. -/
def compute_shockOpt (num_assets : ℕ)
    (P : Mat num_assets → Option (Mat num_assets)) (s : ℚ → ℚ)
    (base_drift base_vol base_correlation delta_drift vol_multiplier : List ℚ)
    (correlation_skew : ℚ) (jump_lambda jump_mean jump_vol : F32V) :
    Option (Except String EngineResult) :=
  let n := num_assets
  if base_drift.length ≠ n ∨ base_vol.length ≠ n ∨
      base_correlation.length ≠ n * n ∨ delta_drift.length ≠ n ∨
      vol_multiplier.length ≠ n then
    some (Except.error (dimMismatchMsg n base_drift.length base_vol.length
      base_correlation.length delta_drift.length vol_multiplier.length))
  else
    let base_drift_v := vecOfList n base_drift
    let base_vol_v := vecOfList n base_vol
    let base_corr_m := matOfRowList n base_correlation
    let delta_drift_v := vecOfList n delta_drift
    let vol_mult_v := vecOfList n vol_multiplier
    let adj_drift := adjust_drift base_drift_v delta_drift_v
    let adj_vol := adjust_vol base_vol_v vol_mult_v
    let blended := blend_correlation base_corr_m correlation_skew
    match nearestPDOpt P blended with
    | none => none
    | some pd =>
      let cov := rebuild_covariance adj_vol pd
      match cholesky_decompose s cov with
      | Except.error e => some (Except.error e)
      | Except.ok l =>
        some (Except.ok
          { adjusted_drift := listOfVec adj_drift
            adjusted_vol := listOfVec adj_vol
            cholesky_l := flattenRowMajor l
            num_assets := n
            jump_lambda := jump_lambda
            jump_mean := jump_mean
            jump_vol := jump_vol })

/-! ### Concrete data used by individual claims

`Mc1` is the symmetric input `[[1, 1+5e-10], [1+5e-10, 1]]`.  Its eigenvalues
are `2 + 5e-10` (eigenvector `(1,1)/√2`) and `-5e-10` (eigenvector
`(1,-1)/√2`); the clamp block lifts the negative one to `eps = 1e-10`, so on
this input it returns exactly `Xc1`, and the loop of `nearest_pd` then breaks
out of its first iteration (the distance to the unit-diagonal projection is
`3e-10·√2 < 1e-9`).  `Pc1` is an eigensolver model that behaves exactly like
the clamp block on the one matrix this run feeds to it, which the
`IsEigClamp Mc1 (Pc1 Mc1)` conjunct of the counterexample certifies. -/

/-- The pathological symmetric input of the C1 counterexample. -/
def Mc1 : Mat 2 := !![1, 1 + 5 / 10 ^ 10; 1 + 5 / 10 ^ 10, 1]

/-- The exact eigenvalue-clamped projection of `Mc1`. -/
def Xc1 : Mat 2 :=
  !![1 + 3 / 10 ^ 10, 1 + 2 / 10 ^ 10; 1 + 2 / 10 ^ 10, 1 + 3 / 10 ^ 10]

/-- Eigensolver model for the C1 counterexample run (which calls the clamp
block exactly once, on `Mc1` itself). -/
def Pc1 : Mat 2 → Mat 2 := fun _ => Xc1

/-- What `nearest_pd` returns on `Mc1`: off-diagonal `1 + 2e-10 > 1`, so the
eigenvalues are `2 + 2e-10` and `-2e-10` — not positive-definite. -/
def outc1 : Mat 2 := !![1, 1 + 2 / 10 ^ 10; 1 + 2 / 10 ^ 10, 1]

/-- A valid correlation matrix (eigenvalues `3/2, 1/2 ≥ eps`), used to witness
the idempotence part of C1. -/
def Mfix : Mat 2 := !![1, 1 / 2; 1 / 2, 1]

/-- Volatilities used by the C6 witness. -/
def sigmaC6 : Vec 2 := ![3, 4]

/-- Square-root model for the C6 witness: exact on the two pivots `9` and
`16` of `rebuild_covariance sigmaC6 I = diag(9, 16)`. -/
def sqrtC6 : ℚ → ℚ := fun x => if x = 9 then 3 else if x = 16 then 4 else 0

/-! Concrete data of the C2 end-to-end scenario (the "stress test" of the
spec): base drift `[0.08, 0.03, 0.05]`, base vol `[0.18, 0.06, 0.22]`, the
3×3 base correlation, drift shift `[-0.15, 0.05, -0.08]`, vol multiplier
`[3.0, 1.8, 2.5]`, skew `0.85`, written as exact rationals. -/

def baseDriftC2 : List ℚ := [2 / 25, 3 / 100, 1 / 20]

def baseVolC2 : List ℚ := [9 / 50, 3 / 50, 11 / 50]

def baseCorrC2 : List ℚ :=
  [1, 1 / 5, 3 / 10, 1 / 5, 1, -(1 / 10), 3 / 10, -(1 / 10), 1]

def deltaDriftC2 : List ℚ := [-(3 / 20), 1 / 20, -(2 / 25)]

def volMultC2 : List ℚ := [3, 9 / 5, 5 / 2]

/-- The blended correlation `0.15·R + 0.85·J` of the C2 scenario (exact). -/
def blendC2 : Mat 3 :=
  !![1, 22 / 25, 179 / 200;
     22 / 25, 1, 167 / 200;
     179 / 200, 167 / 200, 1]

/-- The covariance `D·blendC2·D` with `D = diag(0.54, 0.108, 0.55)` (exact). -/
def covC2 : Mat 3 :=
  !![729 / 2500, 8019 / 156250, 53163 / 200000;
     8019 / 156250, 729 / 62500, 49599 / 1000000;
     53163 / 200000, 49599 / 1000000, 121 / 400]

/-- The Cholesky factor of `covC2` as the column algorithm builds it, in terms
of the injected square root applied to the three (exactly computed, rational)
pivots `729/2500`, `102789/39062500` and `859947/15040000`. -/
def LC2 (s : ℚ → ℚ) : Mat 3 :=
  !![s (729 / 2500), 0, 0;
     8019 / 156250 / s (729 / 2500), s (102789 / 39062500), 0;
     53163 / 200000 / s (729 / 2500),
       70389 / 25000000 / s (102789 / 39062500), s (859947 / 15040000)]

/-- Witness square root for C2: a rational value inside the stated interval at
each of the three pivots. -/
def sqrtC2 : ℚ → ℚ := fun x =>
  if x = 729 / 2500 then 27 / 50
  else if x = 102789 / 39062500 then 6412144727 / 125000000000
  else if x = 859947 / 15040000 then 2391178101432 / 10000000000000
  else 0

/-! ### Basic lemmas about the nearest-PD building blocks -/

theorem setDiag1_apply {n : ℕ} (M : Mat n) (i j : Fin n) :
    setDiag1 M i j = if i = j then 1 else M i j := rfl

theorem setDiag1_diag {n : ℕ} (M : Mat n) (i : Fin n) :
    setDiag1 M i i = 1 := by
  simp [setDiag1]

theorem setDiag1_isSymm {n : ℕ} {M : Mat n} (h : M.IsSymm) :
    (setDiag1 M).IsSymm := by
  rw [Matrix.IsSymm.ext_iff]
  intro i j
  by_cases hij : i = j
  · subst hij; simp [setDiag1]
  · have hji : ¬ j = i := fun hh => hij hh.symm
    simp [setDiag1, hij, hji, h.apply i j]

theorem symmetrize_isSymm {n : ℕ} (M : Mat n) : (symmetrize M).IsSymm := by
  rw [Matrix.IsSymm.ext_iff]
  intro i j
  simp [symmetrize, Matrix.add_apply, Matrix.transpose_apply]
  ring

theorem symmetrize_of_isSymm {n : ℕ} {M : Mat n} (h : M.IsSymm) :
    symmetrize M = M := by
  ext i j
  simp [symmetrize, Matrix.add_apply, Matrix.transpose_apply, h.apply i j]
  ring

theorem setDiag1_of_diag_one {n : ℕ} {M : Mat n} (h : ∀ i, M i i = 1) :
    setDiag1 M = M := by
  ext i j
  by_cases hij : i = j
  · subst hij; simp [setDiag1, h]
  · simp [setDiag1, hij]

theorem nearestPDGo_count {n : ℕ} (P : Mat n → Mat n) :
    ∀ (fuel : ℕ) (y ds : Mat n) (k : ℕ),
      (nearestPDGo P fuel y ds k).2 ≤ k + fuel := by
  intro fuel
  induction fuel with
  | zero => intro y ds k; simp [nearestPDGo]
  | succ f ih =>
    intro y ds k
    rw [nearestPDGo]
    split
    · simp
    · exact le_trans (ih _ _ _) (by omega)

/-! ### Claims C5, C7, C10 -/

/-- Claim C5: `nearest_pd` never fails and always terminates: the loop runs at
most 100 iterations (the fuel; the early break when the squared Frobenius norm
of `Y - X` falls below `(10 · eps)^2` is part of `nearestPDGo`), and the
result is returned unconditionally, with symmetrisation and the unit diagonal
re-enforced on exit whether or not convergence was reached. -/
theorem claim_C5_terminates : ∀ (n : ℕ) (P : Mat n → Mat n) (M : Mat n),
    (nearestPDGo P 100 (symmetrize M) 0 0).2 ≤ 100 ∧
    nearestPD P M =
      setDiag1 (symmetrize (nearestPDGo P 100 (symmetrize M) 0 0).1) ∧
    (nearestPD P M).IsSymm ∧ ∀ i, nearestPD P M i i = 1 := by
  intro n P M
  refine ⟨nearestPDGo_count P 100 _ _ 0, rfl, ?_, fun i => setDiag1_diag _ i⟩
  exact setDiag1_isSymm (symmetrize_isSymm _)

/-- Claim C7: `blend_correlation` computes `(1 - skew)·R + skew·J` entrywise
for every square matrix and every skew (no clamping: the formula holds for
skew outside `[0, 1]` as well); in particular `blend(R, 0) = R` and
`blend(R, 1) = J` exactly (hence within the stated tolerance `1e-10`). -/
theorem claim_C7_blend : ∀ (n : ℕ) (R : Mat n) (skew : ℚ),
    (∀ i j, blend_correlation R skew i j = (1 - skew) * R i j + skew) ∧
    blend_correlation R 0 = R ∧ blend_correlation R 1 = onesMat n := by
  intro n R skew
  refine ⟨fun i j => ?_, ?_, ?_⟩
  · simp [blend_correlation, onesMat, Matrix.add_apply, Matrix.smul_apply,
      smul_eq_mul]
  · ext i j
    simp [blend_correlation, onesMat, Matrix.add_apply, Matrix.smul_apply,
      smul_eq_mul]
  · ext i j
    simp [blend_correlation, onesMat, Matrix.add_apply, Matrix.smul_apply,
      smul_eq_mul]

/-- Claim C10: every diagonal entry of the matrix returned by `nearest_pd` is
exactly `1` (the unit diagonal is assigned as the last operation, after the
final symmetrisation), for every input and every eigensolver. -/
theorem claim_C10_diag_exact : ∀ (n : ℕ) (P : Mat n → Mat n) (M : Mat n)
    (i : Fin n), nearestPD P M i i = 1 := by
  intro n P M i
  exact setDiag1_diag _ i

/-! ### One-iteration evaluation lemmas for `nearest_pd`

Every concrete run this development needs breaks out of the loop at the first
iteration, so these two lemmas are how concrete runs are evaluated. -/

theorem frobSq_zero {n : ℕ} : frobSq (0 : Mat n) = 0 := by
  simp [frobSq]

theorem tolSq_pos : 0 < tolSq := by norm_num [tolSq, eps]

theorem nearestPDGo_succ {n : ℕ} (P : Mat n → Mat n) (fuel : ℕ)
    (y ds : Mat n) (k : ℕ) :
    nearestPDGo P (fuel + 1) y ds k =
      if frobSq (setDiag1 (P (y - ds)) - P (y - ds)) < tolSq then
        (setDiag1 (P (y - ds)), k + 1)
      else nearestPDGo P fuel (setDiag1 (P (y - ds)))
        (P (y - ds) - (y - ds)) (k + 1) := rfl

/-- If the very first projected iterate already meets the convergence test,
`nearest_pd` returns it (finally symmetrised, diagonal forced to one). -/
theorem nearestPD_one_iter {n : ℕ} (P : Mat n → Mat n) {M : Mat n}
    (hsym : M.IsSymm)
    (hbreak : frobSq (setDiag1 (P M) - P M) < tolSq) :
    nearestPD P M = setDiag1 (symmetrize (setDiag1 (P M))) := by
  rw [nearestPD, symmetrize_of_isSymm hsym,
    show (100 : ℕ) = 99 + 1 from rfl, nearestPDGo_succ]
  rw [sub_zero, if_pos hbreak]

/-- A symmetric unit-diagonal fixed point of the projection block is returned
unchanged by `nearest_pd`. -/
theorem nearestPD_fix {n : ℕ} (P : Mat n → Mat n) {M : Mat n}
    (hsym : M.IsSymm) (hdiag : ∀ i, M i i = 1) (hPM : P M = M) :
    nearestPD P M = M := by
  have h1 : setDiag1 (P M) = M := by rw [hPM, setDiag1_of_diag_one hdiag]
  rw [nearestPD_one_iter P hsym
    (by rw [h1, hPM, sub_self, frobSq_zero]; exact tolSq_pos)]
  rw [h1, symmetrize_of_isSymm hsym, setDiag1_of_diag_one hdiag]

/-! ### Quadratic-form helpers over ℚ -/

theorem symm_dot_mulVec {n : ℕ} {T : Mat n} (hT : T.IsSymm) (x z : Vec n) :
    x ⬝ᵥ T.mulVec z = (T.mulVec x) ⬝ᵥ z := by
  rw [Matrix.dotProduct_mulVec, ← Matrix.vecMul_transpose, hT.eq]

theorem dot_self_nonneg {n : ℕ} (x : Vec n) : 0 ≤ x ⬝ᵥ x :=
  Finset.sum_nonneg fun i _ => mul_self_nonneg (x i)

theorem dot_self_pos {n : ℕ} {x : Vec n} (hx : x ≠ 0) : 0 < x ⬝ᵥ x := by
  obtain ⟨i, hi⟩ := Function.ne_iff.mp hx
  refine Finset.sum_pos' (fun j _ => mul_self_nonneg (x j)) ⟨i, Finset.mem_univ i, ?_⟩
  exact mul_self_pos.mpr (by simpa using hi)

/-- Symmetric matrix whose quadratic form vanishes identically is zero
(rational polarisation). -/
theorem eq_zero_of_quadform_zero {n : ℕ} {Z : Mat n} (hZ : Z.IsSymm)
    (h : ∀ x : Vec n, x ⬝ᵥ Z.mulVec x = 0) : Z = 0 := by
  ext i j
  have hii := h (Pi.single i 1)
  have hjj := h (Pi.single j 1)
  have hij := h (Pi.single i 1 + Pi.single j 1)
  simp only [Matrix.mulVec_add, Matrix.dotProduct_add, Matrix.add_dotProduct,
    Matrix.mulVec_single, Matrix.dotProduct_single, Matrix.single_dotProduct] at hii hjj hij
  simp only [mul_one, one_mul] at hii hjj hij
  have hsym := hZ.apply i j
  simp only [Matrix.zero_apply]
  nlinarith [hii, hjj, hij, hsym]

theorem trace_mul_self_symm {n : ℕ} {M : Mat n} (hM : M.IsSymm) :
    Matrix.trace (M * M) = ∑ i, ∑ j, (M i j) ^ 2 := by
  simp only [Matrix.trace, Matrix.diag, Matrix.mul_apply]
  refine Finset.sum_congr rfl fun i _ => Finset.sum_congr rfl fun j _ => ?_
  rw [hM.apply i j, pow_two]

theorem eq_zero_of_sq_sum_zero {n : ℕ} {M : Mat n}
    (h : ∑ i, ∑ j, (M i j) ^ 2 = 0) : M = 0 := by
  ext i j
  have h1 := (Finset.sum_eq_zero_iff_of_nonneg fun i _ =>
    Finset.sum_nonneg fun j _ => sq_nonneg (M i j)).mp h i (Finset.mem_univ i)
  have h2 := (Finset.sum_eq_zero_iff_of_nonneg fun j _ =>
    sq_nonneg (M i j)).mp h1 j (Finset.mem_univ j)
  simpa using sq_eq_zero_iff.mp h2

/-- A symmetric rational matrix with zero cube is zero. -/
theorem symm_cube_eq_zero {n : ℕ} {T : Mat n} (hT : T.IsSymm)
    (h3 : T * T * T = 0) : T = 0 := by
  have hT2 : (T * T).IsSymm := by
    rw [Matrix.IsSymm, Matrix.transpose_mul, hT.eq]
  have h4 : T * T * (T * T) = 0 := by
    calc T * T * (T * T) = T * T * T * T := by rw [Matrix.mul_assoc (T * T) T T]
    _ = 0 := by rw [h3, Matrix.zero_mul]
  have hT2z : T * T = 0 :=
    eq_zero_of_sq_sum_zero (by rw [← trace_mul_self_symm hT2, h4, Matrix.trace_zero])
  exact eq_zero_of_sq_sum_zero
    (by rw [← trace_mul_self_symm hT, hT2z, Matrix.trace_zero])

/-- Uniqueness half of the clamp characterisation that the claims need: on a
symmetric input whose eigenvalues are all at least `eps` (expressed as
`A - eps·I ⪰ 0`), the clamp block leaves the matrix unchanged. -/
theorem eigClamp_fixed {n : ℕ} {A S : Mat n} (hA : A.IsSymm)
    (hApsd : PSDQ (A - eps • (1 : Mat n))) (h : IsEigClamp A S) : S = A := by
  obtain ⟨hSsym, _, hTU, hTpsd, _⟩ := h
  set T := S - A with hTdef
  set W := A - eps • (1 : Mat n) with hWdef
  have hTsym : T.IsSymm := hSsym.sub hA
  have hU : S - eps • (1 : Mat n) = W + T := by rw [hWdef, hTdef]; abel
  have hTWT : T * W * T + T * T * T = 0 := by
    have : T * (W + T) * T = 0 := by
      rw [← hU, Matrix.mul_assoc, ← Matrix.mul_assoc, hTU, Matrix.zero_mul]
    calc T * W * T + T * T * T = T * (W + T) * T := by
          rw [Matrix.mul_add, Matrix.add_mul]
    _ = 0 := this
  have hkey : ∀ x : Vec n, x ⬝ᵥ (T * T * T).mulVec x = 0 := by
    intro x
    have hsum : x ⬝ᵥ (T * W * T).mulVec x + x ⬝ᵥ (T * T * T).mulVec x = 0 := by
      rw [← Matrix.dotProduct_add, ← Matrix.add_mulVec, hTWT,
        Matrix.zero_mulVec, Matrix.dotProduct_zero]
    have h1 : x ⬝ᵥ (T * W * T).mulVec x = (T.mulVec x) ⬝ᵥ W.mulVec (T.mulVec x) := by
      rw [Matrix.mul_assoc, ← Matrix.mulVec_mulVec, ← Matrix.mulVec_mulVec,
        symm_dot_mulVec hTsym]
    have h2 : x ⬝ᵥ (T * T * T).mulVec x = (T.mulVec x) ⬝ᵥ T.mulVec (T.mulVec x) := by
      rw [Matrix.mul_assoc, ← Matrix.mulVec_mulVec, ← Matrix.mulVec_mulVec,
        symm_dot_mulVec hTsym]
    have hq1 : 0 ≤ x ⬝ᵥ (T * W * T).mulVec x := by rw [h1]; exact hApsd _
    have hq2 : 0 ≤ x ⬝ᵥ (T * T * T).mulVec x := by rw [h2]; exact hTpsd _
    linarith
  have hT3sym : (T * T * T).IsSymm := by
    rw [Matrix.IsSymm, Matrix.transpose_mul, Matrix.transpose_mul, hTsym.eq,
      Matrix.mul_assoc]
  have hT3 : T * T * T = 0 := eq_zero_of_quadform_zero hT3sym hkey
  have := symm_cube_eq_zero hTsym hT3
  rw [hTdef] at this
  exact sub_eq_zero.mp this

/-! ### Positive-semidefiniteness helpers -/

theorem psdq_zero {n : ℕ} : PSDQ (0 : Mat n) := by
  intro x
  simp [Matrix.zero_mulVec]

/-- A 2×2 exchange matrix `[[u, v], [v, u]]` with `u + v ≥ 0` and `u - v ≥ 0`
is positive semidefinite: its quadratic form is
`((u+v)(x+y)^2 + (u-v)(x-y)^2) / 2`. -/
theorem psdq_exchange2 {u v : ℚ} (h1 : 0 ≤ u + v) (h2 : 0 ≤ u - v) :
    PSDQ !![u, v; v, u] := by
  intro x
  have e1 := sq_nonneg (x 0 + x 1)
  have e2 := sq_nonneg (x 0 - x 1)
  simp [Matrix.dotProduct, Matrix.mulVec, Fin.sum_univ_two]
  nlinarith [mul_nonneg h1 e1, mul_nonneg h2 e2]

theorem isSymm_exchange2 (u v : ℚ) : (!![u, v; v, u] : Mat 2).IsSymm := by
  rw [Matrix.IsSymm.ext_iff]
  intro i j
  fin_cases i <;> fin_cases j <;> simp

/-! ### Claim C1 -/

theorem Mc1_isSymm : Mc1.IsSymm := isSymm_exchange2 _ _

theorem eigClamp_Mc1 : IsEigClamp Mc1 (Pc1 Mc1) := by
  refine ⟨isSymm_exchange2 _ _, ?_, ?_, ?_, ?_⟩
  · show Xc1 * Mc1 = Mc1 * Xc1
    ext i j
    fin_cases i <;> fin_cases j <;>
      simp [Xc1, Mc1, Matrix.mul_apply, Fin.sum_univ_two] <;> ring
  · show (Xc1 - Mc1) * (Xc1 - eps • (1 : Mat 2)) = 0
    ext i j
    fin_cases i <;> fin_cases j <;>
      simp [Xc1, Mc1, eps, Matrix.mul_apply, Fin.sum_univ_two,
        Matrix.sub_apply, Matrix.smul_apply, Matrix.one_apply] <;> norm_num
  · show PSDQ (Xc1 - Mc1)
    have h : Xc1 - Mc1 =
        !![3 / 10 ^ 10, -(3 / 10 ^ 10); -(3 / 10 ^ 10), 3 / 10 ^ 10] := by
      ext i j
      fin_cases i <;> fin_cases j <;>
        simp [Xc1, Mc1, Matrix.sub_apply] <;> norm_num
    rw [h]
    exact psdq_exchange2 (by norm_num) (by norm_num)
  · show PSDQ (Xc1 - eps • (1 : Mat 2))
    have h : Xc1 - eps • (1 : Mat 2) =
        !![1 + 2 / 10 ^ 10, 1 + 2 / 10 ^ 10; 1 + 2 / 10 ^ 10, 1 + 2 / 10 ^ 10] := by
      ext i j
      fin_cases i <;> fin_cases j <;>
        simp [Xc1, eps, Matrix.sub_apply, Matrix.smul_apply, Matrix.one_apply] <;>
          norm_num
    rw [h]
    exact psdq_exchange2 (by norm_num) (by norm_num)

theorem nearestPD_Mc1 : nearestPD Pc1 Mc1 = outc1 := by
  have hsd : setDiag1 (Pc1 Mc1) = outc1 := by
    ext i j
    fin_cases i <;> fin_cases j <;> simp [Pc1, Xc1, outc1, setDiag1]
  have houtsymm : outc1.IsSymm := isSymm_exchange2 _ _
  have houtdiag : ∀ i, outc1 i i = 1 := by
    intro i; fin_cases i <;> simp [outc1]
  have hbreak : frobSq (setDiag1 (Pc1 Mc1) - Pc1 Mc1) < tolSq := by
    rw [hsd]
    show frobSq (outc1 - Xc1) < tolSq
    have h : outc1 - Xc1 =
        !![-(3 / 10 ^ 10), 0; 0, -(3 / 10 ^ 10)] := by
      ext i j
      fin_cases i <;> fin_cases j <;>
        simp [outc1, Xc1, Matrix.sub_apply]
    rw [h]
    norm_num [frobSq, tolSq, eps, Fin.sum_univ_two]
  rw [nearestPD_one_iter Pc1 Mc1_isSymm hbreak, hsd,
    symmetrize_of_isSymm houtsymm, setDiag1_of_diag_one houtdiag]

/-- Claim C1 counterexample: on the symmetric square input `Mc1` (off-diagonal
`1 + 5e-10`), with the eigensolver behaving exactly as the clamp block on the
one matrix this run feeds it (first conjunct), `nearest_pd` returns `outc1`,
whose off-diagonal is `1 + 2e-10 > 1`, so it is not positive-definite: the
vector `(1, -1)` has quadratic form `-4e-10 < 0`.  This refutes the part of
the claim that says every returned matrix has only strictly positive
eigenvalues. -/
theorem claim_C1_counterexample :
    Mc1.IsSymm ∧ IsEigClamp Mc1 (Pc1 Mc1) ∧
      nearestPD Pc1 Mc1 = outc1 ∧ ¬ PosDefQ (nearestPD Pc1 Mc1) := by
  refine ⟨Mc1_isSymm, eigClamp_Mc1, nearestPD_Mc1, ?_⟩
  rw [nearestPD_Mc1]
  rintro ⟨-, hpd⟩
  have hx : (![1, -1] : Vec 2) ≠ 0 := by
    intro hh
    have := congrFun hh 0
    norm_num at this
  have := hpd ![1, -1] hx
  have hval : (![1, -1] : Vec 2) ⬝ᵥ outc1.mulVec ![1, -1] = -(4 / 10 ^ 10) := by
    simp [outc1, Matrix.dotProduct, Matrix.mulVec, Fin.sum_univ_two]
    norm_num
  rw [hval] at this
  norm_num at this

/-- Claim C1, amended: for every square input and every eigensolver the
returned matrix is exactly symmetric and has exactly unit diagonal (hence
within the 1e-8 tolerances); and an input that is already a valid correlation
matrix with all eigenvalues at least the `eps = 1e-10` floor (symmetric, unit
diagonal, `M - eps·I ⪰ 0`) is returned unchanged, provided the clamp block
behaves correctly on it.  The original claim additionally asserted strictly
positive eigenvalues of the output for every input, which
`claim_C1_counterexample` refutes. -/
theorem claim_C1_amended : ∀ (n : ℕ) (P : Mat n → Mat n) (M : Mat n),
    (nearestPD P M).IsSymm ∧ (∀ i, nearestPD P M i i = 1) ∧
    (M.IsSymm → (∀ i, M i i = 1) → PSDQ (M - eps • (1 : Mat n)) →
      IsEigClamp M (P M) → nearestPD P M = M) := by
  intro n P M
  refine ⟨setDiag1_isSymm (symmetrize_isSymm _), fun i => setDiag1_diag _ i,
    fun hsym hdiag hpsd hclamp => ?_⟩
  exact nearestPD_fix P hsym hdiag (eigClamp_fixed hsym hpsd hclamp)

/-- Witness for the amended C1: the valid correlation matrix `Mfix` (with the
identity as the—on this fixed point, correct—clamp model) is returned
unchanged, and the output is symmetric with unit diagonal. -/
theorem claim_C1_amended_witness :
    nearestPD (fun A : Mat 2 => A) Mfix = Mfix := by
  have hsym : Mfix.IsSymm := isSymm_exchange2 _ _
  have hdiag : ∀ i, Mfix i i = 1 := by
    intro i; fin_cases i <;> simp [Mfix]
  have hpsd : PSDQ (Mfix - eps • (1 : Mat 2)) := by
    have h : Mfix - eps • (1 : Mat 2) =
        !![1 - 1 / 10 ^ 10, 1 / 2; 1 / 2, 1 - 1 / 10 ^ 10] := by
      ext i j
      fin_cases i <;> fin_cases j <;>
        simp [Mfix, eps, Matrix.sub_apply, Matrix.smul_apply, Matrix.one_apply]
    rw [h]
    exact psdq_exchange2 (by norm_num) (by norm_num)
  exact (claim_C1_amended 2 (fun A => A) Mfix).2.2 hsym hdiag hpsd
    ⟨hsym, rfl, by rw [sub_self, Matrix.zero_mul], by rw [sub_self]; exact psdq_zero,
      hpsd⟩

/-! ### Claim C8 -/

theorem rebuild_covariance_apply {n : ℕ} (sigma : Vec n) (R : Mat n)
    (i j : Fin n) :
    rebuild_covariance sigma R i j = sigma i * R i j * sigma j := by
  rw [rebuild_covariance, Matrix.mul_diagonal, Matrix.diagonal_mul]

theorem posDefQ_one {n : ℕ} : PosDefQ (1 : Mat n) := by
  refine ⟨Matrix.isSymm_one, fun x hx => ?_⟩
  rw [Matrix.one_mulVec]
  exact dot_self_pos hx

/-- Claim C8: `rebuild_covariance sigma R` equals `D·R·D`, entrywise
`sigma i * R i j * sigma j`; it is symmetric when `R` is, and positive
definite when `R` is positive definite and all volatilities are strictly
positive. -/
theorem claim_C8_rebuild : ∀ (n : ℕ) (sigma : Vec n) (R : Mat n),
    (∀ i j, rebuild_covariance sigma R i j = sigma i * R i j * sigma j) ∧
    (R.IsSymm → (rebuild_covariance sigma R).IsSymm) ∧
    (PosDefQ R → (∀ i, 0 < sigma i) → PosDefQ (rebuild_covariance sigma R)) := by
  intro n sigma R
  refine ⟨rebuild_covariance_apply sigma R, fun hR => ?_, fun hR hs => ?_⟩
  · rw [Matrix.IsSymm.ext_iff]
    intro i j
    rw [rebuild_covariance_apply, rebuild_covariance_apply, hR.apply i j]
    ring
  · refine ⟨?_, fun x hx => ?_⟩
    · rw [Matrix.IsSymm.ext_iff]
      intro i j
      rw [rebuild_covariance_apply, rebuild_covariance_apply, hR.1.apply i j]
      ring
    · have hmv : (rebuild_covariance sigma R).mulVec x =
          (Matrix.diagonal sigma).mulVec
            (R.mulVec ((Matrix.diagonal sigma).mulVec x)) := by
        rw [rebuild_covariance, Matrix.mulVec_mulVec, Matrix.mulVec_mulVec]
      rw [hmv, symm_dot_mulVec (Matrix.isSymm_diagonal sigma)]
      set y := (Matrix.diagonal sigma).mulVec x with hy
      have hyne : y ≠ 0 := by
        obtain ⟨i, hi⟩ := Function.ne_iff.mp hx
        intro hzero
        have hyi : y i = 0 := by rw [hzero]; rfl
        rw [hy, Matrix.mulVec_diagonal] at hyi
        exact (mul_ne_zero (ne_of_gt (hs i)) (by simpa using hi)) hyi
      exact hR.2 y hyne

/-- Witness for C8 at `n = 1`, `sigma = (2)`, `R = I` (positive definite with
positive volatility). -/
theorem claim_C8_witness :
    PosDefQ (rebuild_covariance (fun _ => (2 : ℚ)) (1 : Mat 1)) ∧
      (rebuild_covariance (fun _ => (2 : ℚ)) (1 : Mat 1)).IsSymm :=
  ⟨(claim_C8_rebuild 1 (fun _ => 2) 1).2.2 posDefQ_one (fun _ => by norm_num),
    (claim_C8_rebuild 1 (fun _ => 2) 1).2.1 Matrix.isSymm_one⟩

/-! ### Cholesky: quadratic-form decomposition along the first pivot -/

theorem quad_split {n : ℕ} (A : Mat (n + 1)) (hA : A.IsSymm) (x : Vec (n + 1)) :
    x ⬝ᵥ A.mulVec x
      = A 0 0 * (x 0 * x 0) + 2 * (x 0 * (bvec A ⬝ᵥ vtail x))
        + vtail x ⬝ᵥ (mtail A).mulVec (vtail x) := by
  simp only [Matrix.dotProduct, Matrix.mulVec, Fin.sum_univ_succ, mtail, bvec,
    vtail, Matrix.of_apply]
  have hflip : (∑ j : Fin n, A 0 j.succ * x j.succ)
      = ∑ j : Fin n, A j.succ 0 * x j.succ :=
    Finset.sum_congr rfl fun j _ => by rw [hA.apply j.succ 0]
  have hsplit : (∑ i : Fin n, x i.succ * (A i.succ 0 * x 0 +
        ∑ j : Fin n, A i.succ j.succ * x j.succ))
      = (∑ i : Fin n, A i.succ 0 * x i.succ) * x 0 +
        ∑ i : Fin n, x i.succ * ∑ j : Fin n, A i.succ j.succ * x j.succ := by
    calc (∑ i : Fin n, x i.succ * (A i.succ 0 * x 0 +
          ∑ j : Fin n, A i.succ j.succ * x j.succ))
        = ∑ i : Fin n, (A i.succ 0 * x i.succ * x 0 +
            x i.succ * ∑ j : Fin n, A i.succ j.succ * x j.succ) :=
          Finset.sum_congr rfl fun i _ => by ring
      _ = (∑ i : Fin n, A i.succ 0 * x i.succ * x 0) +
            ∑ i : Fin n, x i.succ * ∑ j : Fin n, A i.succ j.succ * x j.succ :=
          Finset.sum_add_distrib
      _ = (∑ i : Fin n, A i.succ 0 * x i.succ) * x 0 +
            ∑ i : Fin n, x i.succ * ∑ j : Fin n, A i.succ j.succ * x j.succ := by
          rw [Finset.sum_mul]
  rw [hflip, hsplit]
  ring

theorem schurC_isSymm {n : ℕ} {A : Mat (n + 1)} (hA : A.IsSymm) :
    (schurC A).IsSymm := by
  rw [Matrix.IsSymm.ext_iff]
  intro i j
  simp only [schurC, Matrix.of_apply]
  rw [hA.apply i.succ j.succ]
  ring

theorem sum_bilinear_sub {n : ℕ} (a : ℚ) (b : Vec n)
    (M : Fin n → Fin n → ℚ) (y : Vec n) :
    (∑ i, y i * ∑ j, (M i j - b i * b j / a) * y j)
      = (∑ i, y i * ∑ j, M i j * y j)
        - (∑ i, b i * y i) * (∑ j, b j * y j) / a := by
  have key : ∀ i, y i * (∑ j, (M i j - b i * b j / a) * y j)
      = y i * (∑ j, M i j * y j) - b i * y i * (∑ j, b j * y j) / a := by
    intro i
    have h1 : (∑ j, (M i j - b i * b j / a) * y j)
        = (∑ j, M i j * y j) - b i / a * ∑ j, b j * y j := by
      rw [Finset.mul_sum, ← Finset.sum_sub_distrib]
      exact Finset.sum_congr rfl fun j _ => by ring
    rw [h1]
    ring
  rw [Finset.sum_congr rfl fun i _ => key i, Finset.sum_sub_distrib,
    ← Finset.sum_div, ← Finset.sum_mul]

theorem schur_quad {n : ℕ} (A : Mat (n + 1)) (y : Vec n) :
    y ⬝ᵥ (schurC A).mulVec y
      = y ⬝ᵥ (mtail A).mulVec y
        - (bvec A ⬝ᵥ y) * (bvec A ⬝ᵥ y) / A 0 0 := by
  simp only [Matrix.dotProduct, Matrix.mulVec, schurC, mtail, bvec,
    Matrix.of_apply]
  exact sum_bilinear_sub (A 0 0) (fun i => A i.succ 0)
    (fun i j => A i.succ j.succ) y

/-- The pivot decomposition of the quadratic form: completing the square in
the first coordinate exhibits the Schur complement. -/
theorem quad_schur {n : ℕ} (A : Mat (n + 1)) (hA : A.IsSymm)
    (ha : A 0 0 ≠ 0) (x : Vec (n + 1)) :
    x ⬝ᵥ A.mulVec x
      = A 0 0 * (x 0 + (bvec A ⬝ᵥ vtail x) / A 0 0) ^ 2
        + vtail x ⬝ᵥ (schurC A).mulVec (vtail x) := by
  rw [quad_split A hA x, schur_quad A (vtail x)]
  field_simp
  ring

/-! ### Cholesky: equations and positive-definiteness in both directions -/

theorem cholAux_zero (s : ℚ → ℚ) (A : Mat 0) : cholAux s 0 A = some 0 := rfl

theorem cholAux_succ (s : ℚ → ℚ) {n : ℕ} (A : Mat (n + 1)) :
    cholAux s (n + 1) A =
      if 0 < A 0 0 then
        match cholAux s n (schurC A) with
        | none => none
        | some M =>
          some (Matrix.of (Fin.cons (Fin.cons (s (A 0 0)) 0)
            fun i => Fin.cons (A i.succ 0 / s (A 0 0)) (M i)))
      else none := rfl

theorem cholPivots_succ {n : ℕ} (A : Mat (n + 1)) :
    cholPivots (n + 1) A =
      A 0 0 :: (if 0 < A 0 0 then cholPivots n (schurC A) else []) := rfl

theorem pivot_pos_of_posDef {n : ℕ} {A : Mat (n + 1)} (hA : PosDefQ A) :
    0 < A 0 0 := by
  have hne : (Pi.single 0 1 : Vec (n + 1)) ≠ 0 := by
    intro h
    have := congrFun h 0
    simp at this
  have := hA.2 (Pi.single 0 1) hne
  simpa [Matrix.mulVec_single, Matrix.single_dotProduct] using this

theorem schurC_posDef {n : ℕ} {A : Mat (n + 1)} (hA : PosDefQ A) :
    PosDefQ (schurC A) := by
  have ha := pivot_pos_of_posDef hA
  refine ⟨schurC_isSymm hA.1, fun y hy => ?_⟩
  set t : ℚ := -(bvec A ⬝ᵥ y) / A 0 0 with ht
  set x : Vec (n + 1) := Fin.cons t y with hx
  have hxt : vtail x = y := funext fun i => by simp [vtail, hx]
  have hx0 : x 0 = t := by simp [hx]
  have hxne : x ≠ 0 := by
    obtain ⟨i, hi⟩ := Function.ne_iff.mp hy
    intro h0
    apply hi
    have := congrFun h0 i.succ
    simpa [hx] using this
  have hq := hA.2 x hxne
  rw [quad_schur A hA.1 (ne_of_gt ha) x, hxt, hx0, ht] at hq
  have hz : -(bvec A ⬝ᵥ y) / A 0 0 + bvec A ⬝ᵥ y / A 0 0 = 0 := by ring
  rw [hz] at hq
  simpa using hq

theorem cholAux_isSome_of_posDef (s : ℚ → ℚ) :
    ∀ (n : ℕ) (A : Mat n), PosDefQ A → ∃ L, cholAux s n A = some L := by
  intro n
  induction n with
  | zero => exact fun A _ => ⟨0, rfl⟩
  | succ n ih =>
    intro A hA
    obtain ⟨M, hM⟩ := ih (schurC A) (schurC_posDef hA)
    rw [cholAux_succ, if_pos (pivot_pos_of_posDef hA), hM]
    exact ⟨_, rfl⟩

theorem posDefQ_fin_zero {A : Mat 0} (hA : A.IsSymm) : PosDefQ A :=
  ⟨hA, fun x hx => absurd (funext fun i => i.elim0) hx⟩

theorem cholAux_posDef (s : ℚ → ℚ) :
    ∀ (n : ℕ) (A : Mat n), A.IsSymm →
      ∀ L, cholAux s n A = some L → PosDefQ A := by
  intro n
  induction n with
  | zero => exact fun A hA L _ => posDefQ_fin_zero hA
  | succ n ih =>
    intro A hA L hL
    rw [cholAux_succ] at hL
    by_cases ha : 0 < A 0 0
    · rw [if_pos ha] at hL
      cases hsc : cholAux s n (schurC A) with
      | none => rw [hsc] at hL; cases hL
      | some M =>
        have hschur := ih (schurC A) (schurC_isSymm hA) M hsc
        refine ⟨hA, fun x hx => ?_⟩
        rw [quad_schur A hA (ne_of_gt ha) x]
        by_cases hy : vtail x = 0
        · have hx0 : x 0 ≠ 0 := by
            intro h0
            apply hx
            funext i
            rcases Fin.eq_zero_or_eq_succ i with rfl | ⟨j, rfl⟩
            · exact h0
            · exact congrFun hy j
          have hb : bvec A ⬝ᵥ vtail x = 0 := by rw [hy, Matrix.dotProduct_zero]
          have hs2 : vtail x ⬝ᵥ (schurC A).mulVec (vtail x) = 0 := by
            rw [hy]
            simp
          rw [hb, hs2]
          have : (0 : ℚ) / A 0 0 = 0 := zero_div _
          rw [this, add_zero, add_zero]
          positivity
        · have h1 : 0 ≤ A 0 0 * (x 0 + bvec A ⬝ᵥ vtail x / A 0 0) ^ 2 := by
            positivity
          have h2 := hschur.2 (vtail x) hy
          linarith
    · rw [if_neg ha] at hL
      cases hL

/-! ### Cholesky: soundness of the factor -/

theorem sqrtExactOn_head {s : ℚ → ℚ} {n : ℕ} {A : Mat (n + 1)}
    (h : SqrtExactOn s A) (ha : 0 < A 0 0) :
    s (A 0 0) * s (A 0 0) = A 0 0 ∧ 0 < s (A 0 0) :=
  h (A 0 0) (by rw [cholPivots_succ]; exact List.mem_cons_self _ _) ha

theorem sqrtExactOn_schur {s : ℚ → ℚ} {n : ℕ} {A : Mat (n + 1)}
    (h : SqrtExactOn s A) (ha : 0 < A 0 0) : SqrtExactOn s (schurC A) :=
  fun p hp hpos =>
    h p (by rw [cholPivots_succ, if_pos ha]; exact List.mem_cons_of_mem _ hp) hpos

theorem cholAux_sound (s : ℚ → ℚ) :
    ∀ (n : ℕ) (A : Mat n), A.IsSymm → SqrtExactOn s A →
      ∀ L, cholAux s n A = some L →
        (∀ i j : Fin n, i < j → L i j = 0) ∧ L * L.transpose = A := by
  intro n
  induction n with
  | zero =>
    intro A hA hsq L hL
    have hL0 : L = 0 := (Option.some.inj hL).symm
    subst hL0
    refine ⟨fun i j _ => i.elim0, ?_⟩
    ext i j
    exact i.elim0
  | succ n ih =>
    intro A hA hs L hL
    rw [cholAux_succ] at hL
    by_cases ha : 0 < A 0 0
    swap
    · rw [if_neg ha] at hL; cases hL
    rw [if_pos ha] at hL
    cases hsc : cholAux s n (schurC A) with
    | none => rw [hsc] at hL; cases hL
    | some M =>
      rw [hsc] at hL
      have hLdef : L = Matrix.of (Fin.cons (Fin.cons (s (A 0 0)) 0)
          fun i => Fin.cons (A i.succ 0 / s (A 0 0)) (M i)) :=
        (Option.some.inj hL).symm
      obtain ⟨hsq, hspos⟩ := sqrtExactOn_head hs ha
      obtain ⟨hupM, hprodM⟩ :=
        ih (schurC A) (schurC_isSymm hA) (sqrtExactOn_schur hs ha) M hsc
      have hsne : s (A 0 0) ≠ 0 := ne_of_gt hspos
      have e00 : L 0 0 = s (A 0 0) := by
        rw [hLdef]
        simp [Matrix.of_apply, Fin.cons_zero]
      have e0s : ∀ j : Fin n, L 0 j.succ = 0 := by
        intro j
        rw [hLdef]
        simp [Matrix.of_apply, Fin.cons_zero, Fin.cons_succ]
      have es0 : ∀ i : Fin n, L i.succ 0 = A i.succ 0 / s (A 0 0) := by
        intro i
        rw [hLdef]
        simp [Matrix.of_apply, Fin.cons_zero, Fin.cons_succ]
      have ess : ∀ i j : Fin n, L i.succ j.succ = M i j := by
        intro i j
        rw [hLdef]
        simp [Matrix.of_apply, Fin.cons_succ]
      constructor
      · intro i j hij
        rcases Fin.eq_zero_or_eq_succ i with rfl | ⟨i0, rfl⟩
        · rcases Fin.eq_zero_or_eq_succ j with rfl | ⟨j0, rfl⟩
          · exact absurd hij (lt_irrefl 0)
          · exact e0s j0
        · rcases Fin.eq_zero_or_eq_succ j with rfl | ⟨j0, rfl⟩
          · exact absurd hij (by simp)
          · rw [ess]
            exact hupM i0 j0 (by simpa using hij)
      · ext i j
        rw [Matrix.mul_apply]
        simp only [Matrix.transpose_apply]
        rcases Fin.eq_zero_or_eq_succ i with rfl | ⟨i0, rfl⟩
        · rcases Fin.eq_zero_or_eq_succ j with rfl | ⟨j0, rfl⟩
          · rw [Fin.sum_univ_succ, e00]
            have hz : ∀ k : Fin n, L 0 k.succ * L 0 k.succ = 0 := by
              intro k
              rw [e0s k, mul_zero]
            rw [Finset.sum_congr rfl fun k _ => hz k]
            simp [hsq]
          · rw [Fin.sum_univ_succ, e00, es0 j0]
            have hz : ∀ k : Fin n, L 0 k.succ * L j0.succ k.succ = 0 := by
              intro k
              rw [e0s k, zero_mul]
            rw [Finset.sum_congr rfl fun k _ => hz k]
            rw [mul_div_cancel₀ _ hsne]
            simp [hA.apply j0.succ 0]
        · rcases Fin.eq_zero_or_eq_succ j with rfl | ⟨j0, rfl⟩
          · rw [Fin.sum_univ_succ, e00, es0 i0]
            have hz : ∀ k : Fin n, L i0.succ k.succ * L 0 k.succ = 0 := by
              intro k
              rw [e0s k, mul_zero]
            rw [Finset.sum_congr rfl fun k _ => hz k]
            rw [div_mul_cancel₀ _ hsne]
            simp
          · rw [Fin.sum_univ_succ, es0 i0, es0 j0]
            have hface : ∀ k : Fin n, L i0.succ k.succ * L j0.succ k.succ
                = M i0 k * M j0 k := by
              intro k
              rw [ess, ess]
            rw [Finset.sum_congr rfl fun k _ => hface k]
            have hMM : (∑ k : Fin n, M i0 k * M j0 k) = schurC A i0 j0 := by
              rw [← hprodM, Matrix.mul_apply]
              simp only [Matrix.transpose_apply]
            rw [hMM]
            show A i0.succ 0 / s (A 0 0) * (A j0.succ 0 / s (A 0 0)) +
              schurC A i0 j0 = A i0.succ j0.succ
            rw [div_mul_div_comm, hsq]
            simp only [schurC, Matrix.of_apply]
            ring

/-! ### Claim C6 -/

theorem cholPivots_zero (A : Mat 0) : cholPivots 0 A = [] := rfl

theorem rebuild_isSymm {n : ℕ} {sigma : Vec n} {R : Mat n} (hR : R.IsSymm) :
    (rebuild_covariance sigma R).IsSymm := by
  rw [Matrix.IsSymm.ext_iff]
  intro i j
  rw [rebuild_covariance_apply, rebuild_covariance_apply, hR.apply i j]
  ring

theorem cholPivots_two (A : Mat 2) (ha : 0 < A 0 0) :
    cholPivots 2 A = [A 0 0, A 1 1 - A 1 0 * A 1 0 / A 0 0] := by
  show cholPivots (1 + 1) A = _
  rw [cholPivots_succ, if_pos ha]
  show _ :: cholPivots (0 + 1) (schurC A) = _
  rw [cholPivots_succ]
  have hsc : schurC A 0 0 = A 1 1 - A 1 0 * A 1 0 / A 0 0 := by
    simp [schurC, Fin.succ_zero_eq_one]
  rw [hsc]
  split <;> rfl

theorem posDefQ_diag2 {a b : ℚ} (ha : 0 < a) (hb : 0 < b) :
    PosDefQ !![a, 0; 0, b] := by
  constructor
  · rw [Matrix.IsSymm.ext_iff]
    intro i j
    fin_cases i <;> fin_cases j <;> simp
  · intro x hx
    have hform : x ⬝ᵥ (!![a, 0; 0, b] : Mat 2).mulVec x
        = a * (x 0 * x 0) + b * (x 1 * x 1) := by
      simp [Matrix.dotProduct, Matrix.mulVec, Fin.sum_univ_two]
      ring
    rw [hform]
    obtain ⟨i, hi⟩ := Function.ne_iff.mp hx
    fin_cases i
    · have h0 : x 0 ≠ 0 := by simpa using hi
      nlinarith [mul_pos ha (mul_self_pos.mpr h0),
        mul_nonneg hb.le (mul_self_nonneg (x 1))]
    · have h1 : x 1 ≠ 0 := by simpa using hi
      nlinarith [mul_pos hb (mul_self_pos.mpr h1),
        mul_nonneg ha.le (mul_self_nonneg (x 0))]

/-- Claim C6: for every covariance matrix produced by `rebuild_covariance`
(from a symmetric correlation matrix), if it is positive definite then
`cholesky_decompose` succeeds — with exact square roots on the encountered
pivots the returned factor has exactly zero strictly-upper entries and
satisfies `L · Lᵀ = Σ` exactly (in particular within 1e-6) — and if it is not
positive definite then `cholesky_decompose` fails with the
not-positive-definite error. -/
theorem claim_C6_cholesky : ∀ (n : ℕ) (s : ℚ → ℚ) (sigma : Vec n) (R : Mat n),
    R.IsSymm →
    (PosDefQ (rebuild_covariance sigma R) →
      SqrtExactOn s (rebuild_covariance sigma R) →
      ∃ L, cholesky_decompose s (rebuild_covariance sigma R) = Except.ok L ∧
        (∀ i j, i < j → L i j = 0) ∧
        L * L.transpose = rebuild_covariance sigma R) ∧
    (¬ PosDefQ (rebuild_covariance sigma R) →
      cholesky_decompose s (rebuild_covariance sigma R) =
        Except.error cholErrMsg) := by
  intro n s sigma R hR
  constructor
  · intro hPD hs
    obtain ⟨L, hL⟩ := cholAux_isSome_of_posDef s n _ hPD
    obtain ⟨hup, hprod⟩ := cholAux_sound s n _ (rebuild_isSymm hR) hs L hL
    refine ⟨L, ?_, hup, hprod⟩
    rw [cholesky_decompose, hL]
  · intro hnPD
    cases hcc : cholAux s n (rebuild_covariance sigma R) with
    | some L => exact absurd (cholAux_posDef s n _ (rebuild_isSymm hR) L hcc) hnPD
    | none => rw [cholesky_decompose, hcc]

/-- Witness for C6 at `sigma = (3, 4)`, `R = I`: the covariance `diag(9, 16)`
is positive definite, `sqrtC6` is exact on its pivots `9` and `16`, and the
factorisation succeeds with an exact round-trip. -/
theorem claim_C6_witness :
    ∃ L, cholesky_decompose sqrtC6 (rebuild_covariance sigmaC6 (1 : Mat 2)) =
        Except.ok L ∧
      (∀ i j, i < j → L i j = 0) ∧
      L * L.transpose = rebuild_covariance sigmaC6 (1 : Mat 2) := by
  have hcov : rebuild_covariance sigmaC6 (1 : Mat 2) = !![9, 0; 0, 16] := by
    ext i j
    rw [rebuild_covariance_apply]
    fin_cases i <;> fin_cases j <;> norm_num [sigmaC6, Matrix.one_apply]
  refine (claim_C6_cholesky 2 sqrtC6 sigmaC6 1 Matrix.isSymm_one).1 ?_ ?_
  · rw [hcov]
    exact posDefQ_diag2 (by norm_num) (by norm_num)
  · rw [hcov]
    intro p hp hppos
    rw [cholPivots_two _ (by norm_num)] at hp
    have hp2 : p = 9 ∨ p = (16 : ℚ) - 0 * 0 / 9 := by simpa using hp
    rcases hp2 with rfl | hp16
    · norm_num [sqrtC6]
    · rw [hp16]
      norm_num [sqrtC6]

/-! ### Evaluation lemmas for `compute_shock` -/

theorem compute_shock_invalid {n : ℕ} (P : Mat n → Mat n) (s : ℚ → ℚ)
    (bd bv bc dd vm : List ℚ) (skew : ℚ) (jl jm jv : F32V)
    (h : bd.length ≠ n ∨ bv.length ≠ n ∨ bc.length ≠ n * n ∨
      dd.length ≠ n ∨ vm.length ≠ n) :
    compute_shock n P s bd bv bc dd vm skew jl jm jv =
      Except.error (dimMismatchMsg n bd.length bv.length bc.length
        dd.length vm.length) := by
  unfold compute_shock
  rw [if_pos h]

theorem compute_shock_run {n : ℕ} (P : Mat n → Mat n) (s : ℚ → ℚ)
    (bd bv bc dd vm : List ℚ) (skew : ℚ) (jl jm jv : F32V)
    (h : ¬(bd.length ≠ n ∨ bv.length ≠ n ∨ bc.length ≠ n * n ∨
      dd.length ≠ n ∨ vm.length ≠ n)) :
    compute_shock n P s bd bv bc dd vm skew jl jm jv =
      match cholesky_decompose s (rebuild_covariance
          (adjust_vol (vecOfList n bv) (vecOfList n vm))
          (nearestPD P (blend_correlation (matOfRowList n bc) skew))) with
      | Except.error e => Except.error e
      | Except.ok l =>
        Except.ok
          { adjusted_drift :=
              listOfVec (adjust_drift (vecOfList n bd) (vecOfList n dd))
            adjusted_vol :=
              listOfVec (adjust_vol (vecOfList n bv) (vecOfList n vm))
            cholesky_l := flattenRowMajor l
            num_assets := n
            jump_lambda := jl
            jump_mean := jm
            jump_vol := jv } := by
  unfold compute_shock
  rw [if_neg h]

theorem compute_shock_ok {n : ℕ} (P : Mat n → Mat n) (s : ℚ → ℚ)
    (bd bv bc dd vm : List ℚ) (skew : ℚ) (jl jm jv : F32V)
    (h : ¬(bd.length ≠ n ∨ bv.length ≠ n ∨ bc.length ≠ n * n ∨
      dd.length ≠ n ∨ vm.length ≠ n))
    {L : Mat n}
    (hchol : cholAux s n (rebuild_covariance
        (adjust_vol (vecOfList n bv) (vecOfList n vm))
        (nearestPD P (blend_correlation (matOfRowList n bc) skew))) = some L) :
    compute_shock n P s bd bv bc dd vm skew jl jm jv =
      Except.ok
        { adjusted_drift :=
            listOfVec (adjust_drift (vecOfList n bd) (vecOfList n dd))
          adjusted_vol :=
            listOfVec (adjust_vol (vecOfList n bv) (vecOfList n vm))
          cholesky_l := flattenRowMajor L
          num_assets := n
          jump_lambda := jl
          jump_mean := jm
          jump_vol := jv } := by
  rw [compute_shock_run P s bd bv bc dd vm skew jl jm jv h]
  rw [cholesky_decompose, hchol]

theorem compute_shock_cholfail {n : ℕ} (P : Mat n → Mat n) (s : ℚ → ℚ)
    (bd bv bc dd vm : List ℚ) (skew : ℚ) (jl jm jv : F32V)
    (h : ¬(bd.length ≠ n ∨ bv.length ≠ n ∨ bc.length ≠ n * n ∨
      dd.length ≠ n ∨ vm.length ≠ n))
    (hchol : cholAux s n (rebuild_covariance
        (adjust_vol (vecOfList n bv) (vecOfList n vm))
        (nearestPD P (blend_correlation (matOfRowList n bc) skew))) = none) :
    compute_shock n P s bd bv bc dd vm skew jl jm jv =
      Except.error cholErrMsg := by
  rw [compute_shock_run P s bd bv bc dd vm skew jl jm jv h]
  rw [cholesky_decompose, hchol]

/-! ### Claim C4 -/

/-- Claim C4: whenever any of the five buffers has the wrong length, the call
fails — for every eigensolver and square-root model, i.e. before any matrix
operation can matter — with the dimension-mismatch error that reports the
expected `N` together with the actual length of every buffer. -/
theorem claim_C4_dimension_mismatch :
    ∀ (n : ℕ) (P : Mat n → Mat n) (s : ℚ → ℚ) (bd bv bc dd vm : List ℚ)
      (skew : ℚ) (jl jm jv : F32V),
    ¬(bd.length = n ∧ bv.length = n ∧ bc.length = n * n ∧
      dd.length = n ∧ vm.length = n) →
    compute_shock n P s bd bv bc dd vm skew jl jm jv =
      Except.error (dimMismatchMsg n bd.length bv.length bc.length
        dd.length vm.length) := by
  intro n P s bd bv bc dd vm skew jl jm jv h
  exact compute_shock_invalid P s bd bv bc dd vm skew jl jm jv (by tauto)

/-- Witness for C4: the spec's own instance — `N = 3` with a correlation
buffer of length `N² - 1 = 8` — fails with the message that reports all five
actual lengths. -/
theorem claim_C4_witness :
    compute_shock 3 (fun A => A) (fun q => q) [0, 0, 0] [0, 0, 0]
        [0, 0, 0, 0, 0, 0, 0, 0] [0, 0, 0] [0, 0, 0] 0
        (F32V.val 0) (F32V.val 0) (F32V.val 0) =
      Except.error (dimMismatchMsg 3 3 3 8 3 3) ∧
    dimMismatchMsg 3 3 3 8 3 3 =
      "Input length mismatch: expected N=3, got drift=3, vol=3, corr=8, dd=3, vm=3" :=
  ⟨claim_C4_dimension_mismatch 3 (fun A => A) (fun q => q) _ _ _ _ _ 0 _ _ _
      (by norm_num), rfl⟩

/-! ### Claims C3 and C9: the n = 1 and n = 0 concrete runs -/

theorem cholAux_one (s : ℚ → ℚ) (A : Mat 1) (ha : 0 < A 0 0) :
    cholAux s 1 A = some (Matrix.of fun _ _ => s (A 0 0)) := by
  show cholAux s (0 + 1) A = _
  rw [cholAux_succ, if_pos ha, cholAux_zero]
  refine congrArg some (Matrix.ext fun i j => ?_)
  fin_cases i
  fin_cases j
  simp [Fin.cons_zero]

theorem mat1_isSymm (A : Mat 1) : A.IsSymm := by
  rw [Matrix.IsSymm.ext_iff]
  intro i j
  fin_cases i <;> fin_cases j <;> rfl

/-- Full evaluation of the `n = 1` pipeline used by C3: drift `[0]`, vol
`[1]`, correlation `[1]`, no shifts, skew `0`, identity eigensolver and
square root; the jump scalars are arbitrary and come back unchanged. -/
theorem shock1_eval (jl jm jv : F32V) :
    compute_shock 1 (fun A => A) (fun q => q) [0] [1] [1] [0] [1] 0 jl jm jv =
      Except.ok
        { adjusted_drift := [0], adjusted_vol := [1], cholesky_l := [1],
          num_assets := 1, jump_lambda := jl, jump_mean := jm,
          jump_vol := jv } := by
  have hM : matOfRowList 1 [1] = Matrix.of fun _ _ => (1 : ℚ) := by
    ext i j
    fin_cases i
    fin_cases j
    simp [matOfRowList]
  have hblend : blend_correlation (matOfRowList 1 [1]) 0 =
      matOfRowList 1 [1] := by
    ext i j
    simp [blend_correlation, onesMat, Matrix.add_apply, Matrix.smul_apply,
      smul_eq_mul]
  have hdiag : ∀ i, matOfRowList 1 [1] i i = 1 := by
    intro i
    fin_cases i
    simp [matOfRowList]
  have hfix : nearestPD (fun A => A) (blend_correlation (matOfRowList 1 [1]) 0)
      = matOfRowList 1 [1] := by
    rw [hblend]
    exact nearestPD_fix _ (mat1_isSymm _) hdiag rfl
  have hcov : rebuild_covariance (adjust_vol (vecOfList 1 [1]) (vecOfList 1 [1]))
      (nearestPD (fun A => A) (blend_correlation (matOfRowList 1 [1]) 0)) 0 0
      = 1 := by
    rw [hfix, rebuild_covariance_apply]
    simp [adjust_vol, vecOfList, matOfRowList]
  have hchol := cholAux_one (fun q => q)
    (rebuild_covariance (adjust_vol (vecOfList 1 [1]) (vecOfList 1 [1]))
      (nearestPD (fun A => A) (blend_correlation (matOfRowList 1 [1]) 0)))
    (by rw [hcov]; norm_num)
  rw [compute_shock_ok (fun A => A) (fun q => q) [0] [1] [1] [0] [1] 0 jl jm jv
    (by norm_num) hchol]
  refine congrArg Except.ok ?_
  have hfr : List.finRange 1 = [0] := by decide
  rw [EngineResult.mk.injEq]
  refine ⟨?_, ?_, ?_, rfl, rfl, rfl, rfl⟩
  · rw [listOfVec, hfr]
    simp [adjust_drift, vecOfList, Pi.add_apply]
  · rw [listOfVec, hfr]
    simp [adjust_vol, vecOfList]
  · rw [flattenRowMajor, hfr]
    simp [hcov]

/-- Claim C3 counterexample: `compute_shock` accepts a NaN jump intensity — no
finiteness validation happens — and returns it unchanged in a successful
result.  This refutes "compute_shock rejects any call in which one of these
scalars is non-finite". -/
theorem claim_C3_counterexample :
    compute_shock 1 (fun A => A) (fun q => q) [0] [1] [1] [0] [1] 0
        F32V.nan (F32V.val 0) (F32V.val 0) =
      Except.ok
        { adjusted_drift := [0], adjusted_vol := [1], cholesky_l := [1],
          num_assets := 1, jump_lambda := F32V.nan, jump_mean := F32V.val 0,
          jump_vol := F32V.val 0 } :=
  shock1_eval F32V.nan (F32V.val 0) (F32V.val 0)

/-- Claim C3, amended: the three jump-diffusion scalars are never validated
(finite or not); on success they are returned unchanged, and whether the call
succeeds does not depend on them at all. -/
theorem claim_C3_amended :
    ∀ (n : ℕ) (P : Mat n → Mat n) (s : ℚ → ℚ) (bd bv bc dd vm : List ℚ)
      (skew : ℚ) (jl jm jv : F32V),
    (∀ r, compute_shock n P s bd bv bc dd vm skew jl jm jv = Except.ok r →
      r.jump_lambda = jl ∧ r.jump_mean = jm ∧ r.jump_vol = jv) ∧
    (∀ jl2 jm2 jv2,
      (compute_shock n P s bd bv bc dd vm skew jl jm jv).isOk =
      (compute_shock n P s bd bv bc dd vm skew jl2 jm2 jv2).isOk) := by
  intro n P s bd bv bc dd vm skew jl jm jv
  by_cases hlen : bd.length ≠ n ∨ bv.length ≠ n ∨ bc.length ≠ n * n ∨
      dd.length ≠ n ∨ vm.length ≠ n
  · constructor
    · intro r hr
      rw [compute_shock_invalid P s bd bv bc dd vm skew jl jm jv hlen] at hr
      cases hr
    · intro jl2 jm2 jv2
      rw [compute_shock_invalid P s bd bv bc dd vm skew jl jm jv hlen,
        compute_shock_invalid P s bd bv bc dd vm skew jl2 jm2 jv2 hlen]
  · cases hchol : cholAux s n (rebuild_covariance
        (adjust_vol (vecOfList n bv) (vecOfList n vm))
        (nearestPD P (blend_correlation (matOfRowList n bc) skew))) with
    | some L =>
      constructor
      · intro r hr
        rw [compute_shock_ok P s bd bv bc dd vm skew jl jm jv hlen hchol] at hr
        obtain rfl := (Except.ok.inj hr).symm
        exact ⟨rfl, rfl, rfl⟩
      · intro jl2 jm2 jv2
        rw [compute_shock_ok P s bd bv bc dd vm skew jl jm jv hlen hchol,
          compute_shock_ok P s bd bv bc dd vm skew jl2 jm2 jv2 hlen hchol]
        rfl
    | none =>
      constructor
      · intro r hr
        rw [compute_shock_cholfail P s bd bv bc dd vm skew jl jm jv hlen hchol]
          at hr
        cases hr
      · intro jl2 jm2 jv2
        rw [compute_shock_cholfail P s bd bv bc dd vm skew jl jm jv hlen hchol,
          compute_shock_cholfail P s bd bv bc dd vm skew jl2 jm2 jv2 hlen hchol]

/-- Witness for the amended C3, at the concrete `n = 1` run with finite jump
scalars `1, 2, 3`. -/
theorem claim_C3_amended_witness :
    ({ adjusted_drift := [0], adjusted_vol := [1], cholesky_l := [1],
       num_assets := 1, jump_lambda := F32V.val 1, jump_mean := F32V.val 2,
       jump_vol := F32V.val 3 } : EngineResult).jump_lambda = F32V.val 1 ∧
    ({ adjusted_drift := [0], adjusted_vol := [1], cholesky_l := [1],
       num_assets := 1, jump_lambda := F32V.val 1, jump_mean := F32V.val 2,
       jump_vol := F32V.val 3 } : EngineResult).jump_mean = F32V.val 2 ∧
    ({ adjusted_drift := [0], adjusted_vol := [1], cholesky_l := [1],
       num_assets := 1, jump_lambda := F32V.val 1, jump_mean := F32V.val 2,
       jump_vol := F32V.val 3 } : EngineResult).jump_vol = F32V.val 3 :=
  (claim_C3_amended 1 (fun A => A) (fun q => q) [0] [1] [1] [0] [1] 0
      (F32V.val 1) (F32V.val 2) (F32V.val 3)).1 _
    (shock1_eval (F32V.val 1) (F32V.val 2) (F32V.val 3))

/-! ### Claim C9: the zero-asset endpoint

The length validation does pass for `num_assets = 0` with empty buffers, but
the run does not return success: the first loop iteration of `nearest_pd`
applies the eigensolver to the empty 0×0 matrix (the call happens before the
convergence test), and nalgebra's `symmetric_eigen` asserts against empty
matrices, so the real call aborts.  The abort-aware model
`nearestPDOpt`/`compute_shockOpt` captures this; the two `agrees` lemmas
show it coincides with the total model on every run where the eigensolver
returns. -/

theorem nearestPDGoOpt_succ {n : ℕ} (P : Mat n → Option (Mat n)) (fuel : ℕ)
    (y ds : Mat n) (k : ℕ) :
    nearestPDGoOpt P (fuel + 1) y ds k =
      match P (y - ds) with
      | none => none
      | some x =>
        if frobSq (setDiag1 x - x) < tolSq then some (setDiag1 x, k + 1)
        else nearestPDGoOpt P fuel (setDiag1 x) (x - (y - ds)) (k + 1) := rfl

theorem nearestPDGoOpt_agrees {n : ℕ} (P : Mat n → Mat n) :
    ∀ (fuel : ℕ) (y ds : Mat n) (k : ℕ),
      nearestPDGoOpt (fun A => some (P A)) fuel y ds k =
        some (nearestPDGo P fuel y ds k) := by
  intro fuel
  induction fuel with
  | zero => intro y ds k; rfl
  | succ f ih =>
    intro y ds k
    rw [nearestPDGoOpt_succ, nearestPDGo_succ]
    show (if frobSq (setDiag1 (P (y - ds)) - P (y - ds)) < tolSq then
        some (setDiag1 (P (y - ds)), k + 1)
      else nearestPDGoOpt (fun A => some (P A)) f (setDiag1 (P (y - ds)))
        (P (y - ds) - (y - ds)) (k + 1)) = _
    split_ifs
    · rfl
    · rw [ih]

theorem nearestPDOpt_agrees {n : ℕ} (P : Mat n → Mat n) (M : Mat n) :
    nearestPDOpt (fun A => some (P A)) M = some (nearestPD P M) := by
  rw [nearestPDOpt, nearestPD, nearestPDGoOpt_agrees]
  rfl

theorem compute_shockOpt_run (num_assets : ℕ)
    (P : Mat num_assets → Option (Mat num_assets)) (s : ℚ → ℚ)
    (bd bv bc dd vm : List ℚ) (skew : ℚ) (jl jm jv : F32V)
    (h : ¬(bd.length ≠ num_assets ∨ bv.length ≠ num_assets ∨
      bc.length ≠ num_assets * num_assets ∨ dd.length ≠ num_assets ∨
      vm.length ≠ num_assets)) :
    compute_shockOpt num_assets P s bd bv bc dd vm skew jl jm jv =
      match nearestPDOpt P (blend_correlation (matOfRowList num_assets bc)
          skew) with
      | none => none
      | some pd =>
        match cholesky_decompose s (rebuild_covariance
            (adjust_vol (vecOfList num_assets bv) (vecOfList num_assets vm))
            pd) with
        | Except.error e => some (Except.error e)
        | Except.ok l =>
          some (Except.ok
            { adjusted_drift := listOfVec (adjust_drift
                (vecOfList num_assets bd) (vecOfList num_assets dd))
              adjusted_vol := listOfVec (adjust_vol
                (vecOfList num_assets bv) (vecOfList num_assets vm))
              cholesky_l := flattenRowMajor l
              num_assets := num_assets
              jump_lambda := jl
              jump_mean := jm
              jump_vol := jv }) := by
  unfold compute_shockOpt
  rw [if_neg h]

theorem compute_shockOpt_agrees (num_assets : ℕ)
    (P : Mat num_assets → Mat num_assets) (s : ℚ → ℚ)
    (bd bv bc dd vm : List ℚ) (skew : ℚ) (jl jm jv : F32V) :
    compute_shockOpt num_assets (fun A => some (P A)) s bd bv bc dd vm skew
        jl jm jv =
      some (compute_shock num_assets P s bd bv bc dd vm skew jl jm jv) := by
  by_cases h : bd.length ≠ num_assets ∨ bv.length ≠ num_assets ∨
      bc.length ≠ num_assets * num_assets ∨ dd.length ≠ num_assets ∨
      vm.length ≠ num_assets
  · rw [compute_shock_invalid P s bd bv bc dd vm skew jl jm jv h]
    unfold compute_shockOpt
    rw [if_pos h]
  · rw [compute_shockOpt_run num_assets (fun A => some (P A)) s bd bv bc dd vm
      skew jl jm jv h, compute_shock_run P s bd bv bc dd vm skew jl jm jv h,
      nearestPDOpt_agrees]
    show (match cholesky_decompose s (rebuild_covariance
        (adjust_vol (vecOfList num_assets bv) (vecOfList num_assets vm))
        (nearestPD P (blend_correlation (matOfRowList num_assets bc) skew)))
      with
      | Except.error e => some (Except.error e)
      | Except.ok l =>
        some (Except.ok
          ({ adjusted_drift := listOfVec (adjust_drift
              (vecOfList num_assets bd) (vecOfList num_assets dd))
             adjusted_vol := listOfVec (adjust_vol
              (vecOfList num_assets bv) (vecOfList num_assets vm))
             cholesky_l := flattenRowMajor l
             num_assets := num_assets
             jump_lambda := jl
             jump_mean := jm
             jump_vol := jv } : EngineResult))) = _
    cases cholesky_decompose s (rebuild_covariance
        (adjust_vol (vecOfList num_assets bv) (vecOfList num_assets vm))
        (nearestPD P (blend_correlation (matOfRowList num_assets bc) skew)))
      with
    | error e => rfl
    | ok l => rfl

/-- With `num_assets = 0` and empty buffers the length validation passes, and
the run then aborts inside the eigensolver (which panics on every 0×0
matrix), so no value — neither success nor an engine error — is returned. -/
theorem shock0_abort (P : Mat 0 → Option (Mat 0))
    (hP : ∀ A, P A = none) (s : ℚ → ℚ) (skew : ℚ) (jl jm jv : F32V) :
    compute_shockOpt 0 P s [] [] [] [] [] skew jl jm jv = none := by
  rw [compute_shockOpt_run 0 P s [] [] [] [] [] skew jl jm jv (by norm_num)]
  have hopt : nearestPDOpt P (blend_correlation (matOfRowList 0 []) skew)
      = none := by
    rw [nearestPDOpt, show (100 : ℕ) = 99 + 1 from rfl, nearestPDGoOpt_succ,
      hP]
    rfl
  rw [hopt]

/-- Claim C9 counterexample: with the eigensolver modelled as nalgebra
behaves on 0×0 matrices (it panics, i.e. aborts on every empty input), the
`num_assets = 0` call with empty buffers does not return success with empty
arrays — it returns nothing at all (the abort propagates), refuting the
claimed successful return.  The dimension-mismatch branch is not taken
either: the length validation passes. -/
theorem claim_C9_counterexample :
    compute_shockOpt 0 (fun _ => none) (fun q => q) [] [] [] [] [] 0
        (F32V.val 0) (F32V.val 0) (F32V.val 0) = none ∧
    (∀ r, compute_shockOpt 0 (fun _ => none) (fun q => q) [] [] [] [] [] 0
        (F32V.val 0) (F32V.val 0) (F32V.val 0) ≠ some (Except.ok r)) ∧
    (∀ e, compute_shockOpt 0 (fun _ => none) (fun q => q) [] [] [] [] [] 0
        (F32V.val 0) (F32V.val 0) (F32V.val 0) ≠ some (Except.error e)) := by
  have h := shock0_abort (fun _ => none) (fun _ => rfl) (fun q => q) 0
    (F32V.val 0) (F32V.val 0) (F32V.val 0)
  refine ⟨h, fun r hr => ?_, fun e he => ?_⟩
  · rw [h] at hr
    cases hr
  · rw [h] at he
    cases he

/-- Claim C9, amended: `compute_shock` does not reject a zero asset count —
for `num_assets = 0` with all five buffers empty the length validation passes
(the dimension-mismatch error is not produced) — but the call does not return
success either: the pipeline hands the empty 0×0 matrix to the eigensolver,
which aborts (nalgebra's `symmetric_eigen` asserts against empty matrices),
and the abort propagates, so the call terminates abnormally with no result. -/
theorem claim_C9_amended :
    ∀ (P : Mat 0 → Option (Mat 0)) (s : ℚ → ℚ) (skew : ℚ) (jl jm jv : F32V),
    (∀ A, P A = none) →
    compute_shockOpt 0 P s [] [] [] [] [] skew jl jm jv = none ∧
    (∀ e, compute_shockOpt 0 P s [] [] [] [] [] skew jl jm jv ≠
      some (Except.error e)) ∧
    (∀ r, compute_shockOpt 0 P s [] [] [] [] [] skew jl jm jv ≠
      some (Except.ok r)) := by
  intro P s skew jl jm jv hP
  have h := shock0_abort P hP s skew jl jm jv
  refine ⟨h, fun e he => ?_, fun r hr => ?_⟩
  · rw [h] at he
    cases he
  · rw [h] at hr
    cases hr

/-- Witness for the amended C9, at the concrete always-aborting eigensolver
(the nalgebra behaviour on 0×0 inputs) with nonzero skew and jump scalars. -/
theorem claim_C9_amended_witness :
    compute_shockOpt 0 (fun _ => none) (fun q => q + 1) [] [] [] [] [] 1
        (F32V.val 7) (F32V.val 8) (F32V.val 9) = none ∧
    (∀ e, compute_shockOpt 0 (fun _ => none) (fun q => q + 1) [] [] [] [] [] 1
        (F32V.val 7) (F32V.val 8) (F32V.val 9) ≠ some (Except.error e)) ∧
    (∀ r, compute_shockOpt 0 (fun _ => none) (fun q => q + 1) [] [] [] [] [] 1
        (F32V.val 7) (F32V.val 8) (F32V.val 9) ≠ some (Except.ok r)) :=
  claim_C9_amended (fun _ => none) (fun q => q + 1) 1
    (F32V.val 7) (F32V.val 8) (F32V.val 9) (fun _ => rfl)

/-! ### Claim C2: the end-to-end stress-test scenario -/

theorem blendC2_isSymm : blendC2.IsSymm := by
  rw [Matrix.IsSymm.ext_iff]
  intro i j
  fin_cases i <;> fin_cases j <;> rfl

theorem blendC2_diag : ∀ i, blendC2 i i = 1 := by
  intro i
  fin_cases i <;> rfl

theorem blendC2_eval :
    blend_correlation (matOfRowList 3 baseCorrC2) (17 / 20) = blendC2 := by
  ext i j
  fin_cases i <;> fin_cases j <;>
    norm_num [blend_correlation, onesMat, matOfRowList, baseCorrC2, blendC2,
      Matrix.add_apply, Matrix.smul_apply, smul_eq_mul]

/-- Sum-of-squares certificate: `blendC2 - eps·I` is positive semidefinite
(its exact rational LDLᵀ decomposition has positive diagonal). -/
theorem psdq_blendC2_sub_eps : PSDQ (blendC2 - eps • (1 : Mat 3)) := by
  intro x
  have hexp : x ⬝ᵥ (blendC2 - eps • (1 : Mat 3)).mulVec x
      = (9999999999 / 10000000000 : ℚ) *
          (x 0 + 800000000 / 909090909 * x 1 + 8950000000 / 9999999999 * x 2) ^ 2
        + (2050909089090909091 / 9090909090000000000 : ℚ) *
          (x 1 + 39173553650000000 / 186446280826446281 * x 2) ^ 2
        + (3876545447933181820909090909 / 20509090890909090910000000000 : ℚ) *
          (x 2) ^ 2 := by
    simp [Matrix.dotProduct, Matrix.mulVec, Fin.sum_univ_three, blendC2, eps,
      Matrix.sub_apply, Matrix.smul_apply, Matrix.one_apply]
    ring
  rw [hexp]
  positivity

theorem covC2_eval :
    rebuild_covariance (adjust_vol (vecOfList 3 baseVolC2) (vecOfList 3 volMultC2))
      blendC2 = covC2 := by
  ext i j
  rw [rebuild_covariance_apply]
  fin_cases i <;> fin_cases j <;>
    norm_num [adjust_vol, vecOfList, baseVolC2, volMultC2, blendC2, covC2]

theorem schur_covC2 :
    schurC covC2 =
      !![102789 / 39062500, 70389 / 25000000;
         70389 / 25000000, 963039 / 16000000] := by
  ext i j
  fin_cases i <;> fin_cases j <;>
    norm_num [schurC, covC2]

theorem schur_schur_covC2 :
    schurC (!![102789 / 39062500, 70389 / 25000000;
               70389 / 25000000, 963039 / 16000000] : Mat 2) =
      !![859947 / 15040000] := by
  ext i j
  fin_cases i
  fin_cases j
  norm_num [schurC]

theorem fin_cons_one_of_two {α : Type} (x : α) (u : Fin 1 → α) :
    (Fin.cons x u : Fin 2 → α) 1 = u 0 := rfl

theorem fin_cons_one_of_three {α : Type} (x : α) (u : Fin 2 → α) :
    (Fin.cons x u : Fin 3 → α) 1 = u 0 := rfl

theorem fin_cons_two_of_three {α : Type} (x : α) (u : Fin 2 → α) :
    (Fin.cons x u : Fin 3 → α) 2 = u 1 := rfl

theorem cholAux_covC2 (s : ℚ → ℚ) : cholAux s 3 covC2 = some (LC2 s) := by
  have c1 : cholAux s 1 (!![859947 / 15040000] : Mat 1)
      = some (Matrix.of fun _ _ => s (859947 / 15040000)) := by
    have h := cholAux_one s (!![859947 / 15040000]) (by norm_num)
    simpa using h
  have c2m : cholAux s 2 (!![102789 / 39062500, 70389 / 25000000;
      70389 / 25000000, 963039 / 16000000] : Mat 2)
      = some (!![s (102789 / 39062500), 0;
          70389 / 25000000 / s (102789 / 39062500), s (859947 / 15040000)]) := by
    show cholAux s (1 + 1) _ = _
    rw [cholAux_succ, if_pos (by norm_num), schur_schur_covC2, c1]
    refine congrArg some (Matrix.ext fun i j => ?_)
    rcases Fin.eq_zero_or_eq_succ i with rfl | ⟨i0, rfl⟩ <;>
      rcases Fin.eq_zero_or_eq_succ j with rfl | ⟨j0, rfl⟩ <;>
      [skip; fin_cases j0; fin_cases i0; (fin_cases i0 <;> fin_cases j0)] <;>
      simp [Fin.cons_zero, Fin.cons_succ, Fin.succ_zero_eq_one,
        fin_cons_one_of_two, fin_cons_one_of_three, fin_cons_two_of_three,
        Matrix.vecHead, Matrix.vecTail]
  show cholAux s (2 + 1) covC2 = _
  rw [cholAux_succ, if_pos (by norm_num [covC2]), schur_covC2, c2m]
  refine congrArg some (Matrix.ext fun i j => ?_)
  rcases Fin.eq_zero_or_eq_succ i with rfl | ⟨i0, rfl⟩ <;>
    rcases Fin.eq_zero_or_eq_succ j with rfl | ⟨j0, rfl⟩ <;>
    [skip; fin_cases j0; fin_cases i0; (fin_cases i0 <;> fin_cases j0)] <;>
    simp [LC2, covC2, Fin.cons_zero, Fin.cons_succ, Fin.succ_zero_eq_one,
      fin_cons_one_of_two, fin_cons_one_of_three, fin_cons_two_of_three,
      Matrix.vecHead, Matrix.vecTail]

set_option maxHeartbeats 2000000 in
/-- Claim C2: the end-to-end stress scenario.  For any eigensolver behaving
correctly on the (already positive-definite) blended matrix and any square
root within the stated rational windows around the true square roots of the
three pivots, `compute_shock` succeeds with adjusted drift
`[-0.07, 0.08, -0.03]`, adjusted vol `[0.54, 0.108, 0.55]`, and the row-major
flattening of the factor `LC2 s`, which is lower triangular (exact zeros
above the diagonal) and reconstructs `D·PD(blend(R, 0.85))·D` entrywise
within 1e-6.  The jump scalars pass through unchanged. -/
theorem claim_C2_stress :
    ∀ (P : Mat 3 → Mat 3) (s : ℚ → ℚ) (jl jm jv : F32V),
    IsEigClamp blendC2 (P blendC2) →
    27 / 50 - 1 / 10 ^ 12 ≤ s (729 / 2500) →
    s (729 / 2500) ≤ 27 / 50 + 1 / 10 ^ 12 →
    6412144727 / 125000000000 ≤ s (102789 / 39062500) →
    s (102789 / 39062500) ≤ 256485789081 / 5000000000000 →
    2391178101431 / 10 ^ 13 ≤ s (859947 / 15040000) →
    s (859947 / 15040000) ≤ 2391178101433 / 10 ^ 13 →
    compute_shock 3 P s baseDriftC2 baseVolC2 baseCorrC2 deltaDriftC2
        volMultC2 (17 / 20) jl jm jv =
      Except.ok
        { adjusted_drift := [-(7 / 100), 2 / 25, -(3 / 100)]
          adjusted_vol := [27 / 50, 27 / 250, 11 / 20]
          cholesky_l := flattenRowMajor (LC2 s)
          num_assets := 3
          jump_lambda := jl, jump_mean := jm, jump_vol := jv } ∧
    (∀ i j : Fin 3, i < j → LC2 s i j = 0) ∧
    (∀ i j : Fin 3,
      |(LC2 s * (LC2 s).transpose) i j -
        rebuild_covariance
          (adjust_vol (vecOfList 3 baseVolC2) (vecOfList 3 volMultC2))
          (nearestPD P (blend_correlation (matOfRowList 3 baseCorrC2)
            (17 / 20))) i j| ≤ 1 / 1000000) := by
  intro P s jl jm jv hclamp hl1 hh1 hl2 hh2 hl3 hh3
  have hfix : nearestPD P (blend_correlation (matOfRowList 3 baseCorrC2)
      (17 / 20)) = blendC2 := by
    rw [blendC2_eval]
    exact nearestPD_fix P blendC2_isSymm blendC2_diag
      (eigClamp_fixed blendC2_isSymm psdq_blendC2_sub_eps hclamp)
  have hcov : rebuild_covariance
      (adjust_vol (vecOfList 3 baseVolC2) (vecOfList 3 volMultC2))
      (nearestPD P (blend_correlation (matOfRowList 3 baseCorrC2) (17 / 20)))
      = covC2 := by
    rw [hfix]
    exact covC2_eval
  have hchol : cholAux s 3 (rebuild_covariance
      (adjust_vol (vecOfList 3 baseVolC2) (vecOfList 3 volMultC2))
      (nearestPD P (blend_correlation (matOfRowList 3 baseCorrC2) (17 / 20))))
      = some (LC2 s) := by
    rw [hcov]
    exact cholAux_covC2 s
  have hs1p : 0 < s (729 / 2500) := lt_of_lt_of_le (by norm_num) hl1
  have hs2p : 0 < s (102789 / 39062500) := lt_of_lt_of_le (by norm_num) hl2
  have hs3p : 0 < s (859947 / 15040000) := lt_of_lt_of_le (by norm_num) hl3
  refine ⟨?_, ?_, ?_⟩
  · rw [compute_shock_ok P s baseDriftC2 baseVolC2 baseCorrC2 deltaDriftC2
      volMultC2 (17 / 20) jl jm jv
      (by norm_num [baseDriftC2, baseVolC2, baseCorrC2, deltaDriftC2,
        volMultC2]) hchol]
    refine congrArg Except.ok ?_
    rw [EngineResult.mk.injEq]
    have hfr : List.finRange 3 = [0, 1, 2] := by decide
    refine ⟨?_, ?_, rfl, rfl, rfl, rfl, rfl⟩
    · rw [listOfVec, hfr]
      norm_num [adjust_drift, vecOfList, baseDriftC2, deltaDriftC2,
        Pi.add_apply]
    · rw [listOfVec, hfr]
      norm_num [adjust_vol, vecOfList, baseVolC2, volMultC2]
  · intro i j hij
    fin_cases i <;> fin_cases j <;>
      first
        | exact absurd hij (by decide)
        | simp [LC2]
  · intro i j
    rw [hcov]
    have hs1sq_lo : (27 / 50 - 1 / 10 ^ 12) * (27 / 50 - 1 / 10 ^ 12) ≤
        s (729 / 2500) * s (729 / 2500) :=
      mul_le_mul hl1 hl1 (by norm_num) hs1p.le
    have hs1sq_hi : s (729 / 2500) * s (729 / 2500) ≤
        (27 / 50 + 1 / 10 ^ 12) * (27 / 50 + 1 / 10 ^ 12) :=
      mul_le_mul hh1 hh1 hs1p.le (by norm_num)
    have hs2sq_lo : (6412144727 / 125000000000 : ℚ) *
        (6412144727 / 125000000000) ≤
        s (102789 / 39062500) * s (102789 / 39062500) :=
      mul_le_mul hl2 hl2 (by norm_num) hs2p.le
    have hs2sq_hi : s (102789 / 39062500) * s (102789 / 39062500) ≤
        (256485789081 / 5000000000000 : ℚ) * (256485789081 / 5000000000000) :=
      mul_le_mul hh2 hh2 hs2p.le (by norm_num)
    have hs3sq_lo : (2391178101431 / 10 ^ 13 : ℚ) * (2391178101431 / 10 ^ 13) ≤
        s (859947 / 15040000) * s (859947 / 15040000) :=
      mul_le_mul hl3 hl3 (by norm_num) hs3p.le
    have hs3sq_hi : s (859947 / 15040000) * s (859947 / 15040000) ≤
        (2391178101433 / 10 ^ 13 : ℚ) * (2391178101433 / 10 ^ 13) :=
      mul_le_mul hh3 hh3 hs3p.le (by norm_num)
    have hs1sqp : 0 < s (729 / 2500) * s (729 / 2500) := mul_pos hs1p hs1p
    have hs2sqp : 0 < s (102789 / 39062500) * s (102789 / 39062500) :=
      mul_pos hs2p hs2p
    have hd1_hi : (8019 / 156250 : ℚ) * (8019 / 156250) /
        (s (729 / 2500) * s (729 / 2500)) ≤
        8019 / 156250 * (8019 / 156250) /
        ((27 / 50 - 1 / 10 ^ 12) * (27 / 50 - 1 / 10 ^ 12)) :=
      (div_le_div_left (by norm_num) hs1sqp (by norm_num)).mpr hs1sq_lo
    have hd1_lo : (8019 / 156250 : ℚ) * (8019 / 156250) /
        ((27 / 50 + 1 / 10 ^ 12) * (27 / 50 + 1 / 10 ^ 12)) ≤
        8019 / 156250 * (8019 / 156250) /
        (s (729 / 2500) * s (729 / 2500)) :=
      (div_le_div_left (by norm_num) (by norm_num) hs1sqp).mpr hs1sq_hi
    have hd12_hi : (8019 / 156250 : ℚ) * (53163 / 200000) /
        (s (729 / 2500) * s (729 / 2500)) ≤
        8019 / 156250 * (53163 / 200000) /
        ((27 / 50 - 1 / 10 ^ 12) * (27 / 50 - 1 / 10 ^ 12)) :=
      (div_le_div_left (by norm_num) hs1sqp (by norm_num)).mpr hs1sq_lo
    have hd12_lo : (8019 / 156250 : ℚ) * (53163 / 200000) /
        ((27 / 50 + 1 / 10 ^ 12) * (27 / 50 + 1 / 10 ^ 12)) ≤
        8019 / 156250 * (53163 / 200000) /
        (s (729 / 2500) * s (729 / 2500)) :=
      (div_le_div_left (by norm_num) (by norm_num) hs1sqp).mpr hs1sq_hi
    have hd2_hi : (53163 / 200000 : ℚ) * (53163 / 200000) /
        (s (729 / 2500) * s (729 / 2500)) ≤
        53163 / 200000 * (53163 / 200000) /
        ((27 / 50 - 1 / 10 ^ 12) * (27 / 50 - 1 / 10 ^ 12)) :=
      (div_le_div_left (by norm_num) hs1sqp (by norm_num)).mpr hs1sq_lo
    have hd2_lo : (53163 / 200000 : ℚ) * (53163 / 200000) /
        ((27 / 50 + 1 / 10 ^ 12) * (27 / 50 + 1 / 10 ^ 12)) ≤
        53163 / 200000 * (53163 / 200000) /
        (s (729 / 2500) * s (729 / 2500)) :=
      (div_le_div_left (by norm_num) (by norm_num) hs1sqp).mpr hs1sq_hi
    have hdc_hi : (70389 / 25000000 : ℚ) * (70389 / 25000000) /
        (s (102789 / 39062500) * s (102789 / 39062500)) ≤
        70389 / 25000000 * (70389 / 25000000) /
        ((6412144727 / 125000000000) * (6412144727 / 125000000000)) :=
      (div_le_div_left (by norm_num) hs2sqp (by norm_num)).mpr hs2sq_lo
    have hdc_lo : (70389 / 25000000 : ℚ) * (70389 / 25000000) /
        ((256485789081 / 5000000000000) * (256485789081 / 5000000000000)) ≤
        70389 / 25000000 * (70389 / 25000000) /
        (s (102789 / 39062500) * s (102789 / 39062500)) :=
      (div_le_div_left (by norm_num) (by norm_num) hs2sqp).mpr hs2sq_hi
    fin_cases i <;> fin_cases j
    · show |(LC2 s * (LC2 s).transpose) 0 0 - covC2 0 0| ≤ 1 / 1000000
      have he : (LC2 s * (LC2 s).transpose) 0 0
          = s (729 / 2500) * s (729 / 2500) := by
        rw [Matrix.mul_apply]
        simp [LC2, Fin.sum_univ_three]
      rw [he, show covC2 0 0 = (729 / 2500 : ℚ) from by norm_num [covC2],
        abs_le]
      constructor
      · linarith [hs1sq_lo]
      · linarith [hs1sq_hi]
    · show |(LC2 s * (LC2 s).transpose) 0 1 - covC2 0 1| ≤ 1 / 1000000
      have he : (LC2 s * (LC2 s).transpose) 0 1 = (8019 / 156250 : ℚ) := by
        rw [Matrix.mul_apply]
        simp [LC2, Fin.sum_univ_three]
        field_simp
        ring
      rw [he, show covC2 0 1 = (8019 / 156250 : ℚ) from by norm_num [covC2]]
      norm_num
    · show |(LC2 s * (LC2 s).transpose) 0 2 - covC2 0 2| ≤ 1 / 1000000
      have he : (LC2 s * (LC2 s).transpose) 0 2 = (53163 / 200000 : ℚ) := by
        rw [Matrix.mul_apply]
        simp [LC2, Fin.sum_univ_three]
        field_simp
        ring
      rw [he, show covC2 0 2 = (53163 / 200000 : ℚ) from by norm_num [covC2]]
      norm_num
    · show |(LC2 s * (LC2 s).transpose) 1 0 - covC2 1 0| ≤ 1 / 1000000
      have he : (LC2 s * (LC2 s).transpose) 1 0 = (8019 / 156250 : ℚ) := by
        rw [Matrix.mul_apply]
        simp [LC2, Fin.sum_univ_three]
        field_simp
        ring
      rw [he, show covC2 1 0 = (8019 / 156250 : ℚ) from by norm_num [covC2]]
      norm_num
    · show |(LC2 s * (LC2 s).transpose) 1 1 - covC2 1 1| ≤ 1 / 1000000
      have he : (LC2 s * (LC2 s).transpose) 1 1
          = 8019 / 156250 * (8019 / 156250) /
              (s (729 / 2500) * s (729 / 2500)) +
            s (102789 / 39062500) * s (102789 / 39062500) := by
        rw [Matrix.mul_apply]
        simp [LC2, Fin.sum_univ_three]
        field_simp
        ring
      rw [he, show covC2 1 1 = (729 / 62500 : ℚ) from by norm_num [covC2],
        abs_le]
      constructor
      · linarith [hd1_lo, hs2sq_lo]
      · linarith [hd1_hi, hs2sq_hi]
    · show |(LC2 s * (LC2 s).transpose) 1 2 - covC2 1 2| ≤ 1 / 1000000
      have he : (LC2 s * (LC2 s).transpose) 1 2
          = 8019 / 156250 * (53163 / 200000) /
              (s (729 / 2500) * s (729 / 2500)) + 70389 / 25000000 := by
        rw [Matrix.mul_apply]
        simp [LC2, Fin.sum_univ_three]
        field_simp
        ring
      rw [he, show covC2 1 2 = (49599 / 1000000 : ℚ) from by norm_num [covC2],
        abs_le]
      constructor
      · linarith [hd12_lo]
      · linarith [hd12_hi]
    · show |(LC2 s * (LC2 s).transpose) 2 0 - covC2 2 0| ≤ 1 / 1000000
      have he : (LC2 s * (LC2 s).transpose) 2 0 = (53163 / 200000 : ℚ) := by
        rw [Matrix.mul_apply]
        simp [LC2, Fin.sum_univ_three]
        field_simp
        ring
      rw [he, show covC2 2 0 = (53163 / 200000 : ℚ) from by norm_num [covC2]]
      norm_num
    · show |(LC2 s * (LC2 s).transpose) 2 1 - covC2 2 1| ≤ 1 / 1000000
      have he : (LC2 s * (LC2 s).transpose) 2 1
          = 8019 / 156250 * (53163 / 200000) /
              (s (729 / 2500) * s (729 / 2500)) + 70389 / 25000000 := by
        rw [Matrix.mul_apply]
        simp [LC2, Fin.sum_univ_three]
        field_simp
        ring
      rw [he, show covC2 2 1 = (49599 / 1000000 : ℚ) from by norm_num [covC2],
        abs_le]
      constructor
      · linarith [hd12_lo]
      · linarith [hd12_hi]
    · show |(LC2 s * (LC2 s).transpose) 2 2 - covC2 2 2| ≤ 1 / 1000000
      have he : (LC2 s * (LC2 s).transpose) 2 2
          = 53163 / 200000 * (53163 / 200000) /
              (s (729 / 2500) * s (729 / 2500)) +
            70389 / 25000000 * (70389 / 25000000) /
              (s (102789 / 39062500) * s (102789 / 39062500)) +
            s (859947 / 15040000) * s (859947 / 15040000) := by
        rw [Matrix.mul_apply]
        simp [LC2, Fin.sum_univ_three]
        field_simp
        ring
      rw [he, show covC2 2 2 = (121 / 400 : ℚ) from by norm_num [covC2],
        abs_le]
      constructor
      · linarith [hd2_lo, hdc_lo, hs3sq_lo]
      · linarith [hd2_hi, hdc_hi, hs3sq_hi]

/-- Witness for C2: the concrete rational square root `sqrtC2` lies in all
three windows and the identity eigensolver is a correct clamp model on the
positive-definite `blendC2`, so the whole conclusion evaluates. -/
theorem claim_C2_witness :
    compute_shock 3 (fun A => A) sqrtC2 baseDriftC2 baseVolC2 baseCorrC2
        deltaDriftC2 volMultC2 (17 / 20) (F32V.val 2) (F32V.val 0)
        (F32V.val 1) =
      Except.ok
        { adjusted_drift := [-(7 / 100), 2 / 25, -(3 / 100)]
          adjusted_vol := [27 / 50, 27 / 250, 11 / 20]
          cholesky_l := flattenRowMajor (LC2 sqrtC2)
          num_assets := 3
          jump_lambda := F32V.val 2, jump_mean := F32V.val 0,
          jump_vol := F32V.val 1 } ∧
    (∀ i j : Fin 3, i < j → LC2 sqrtC2 i j = 0) ∧
    (∀ i j : Fin 3,
      |(LC2 sqrtC2 * (LC2 sqrtC2).transpose) i j -
        rebuild_covariance
          (adjust_vol (vecOfList 3 baseVolC2) (vecOfList 3 volMultC2))
          (nearestPD (fun A => A) (blend_correlation (matOfRowList 3 baseCorrC2)
            (17 / 20))) i j| ≤ 1 / 1000000) :=
  claim_C2_stress (fun A => A) sqrtC2 (F32V.val 2) (F32V.val 0) (F32V.val 1)
    ⟨blendC2_isSymm, rfl, by rw [sub_self, Matrix.zero_mul],
      by rw [sub_self]; exact psdq_zero, psdq_blendC2_sub_eps⟩
    (by norm_num [sqrtC2]) (by norm_num [sqrtC2]) (by norm_num [sqrtC2])
    (by norm_num [sqrtC2]) (by norm_num [sqrtC2]) (by norm_num [sqrtC2])

end Mssim
